import Mathlib

/-!
Verification development for the PoEDynamicLootFilter backend CLI
(`backend_cli.py`): a shallow embedding of its change-log compaction
engine (`AddFunctionToChangesDict`, `ConvertChangesDictToFunctionListRec`,
`UpdateProfileChangesFile`) and of its batch/replay delegation engine
(`DelegateFunctionCall`), together with theorems about the properties
stated in the design document.

Conventions of the embedding:
* A persisted change-log or batch-input line is modelled as the list of
  tokens produced by tokenization (`shlex.split` and `helper.JoinParams`
  are external tokenization concerns and are out of scope, per the
  design document); a blank or whitespace-only line is the empty token
  list.
* Python `OrderedDict` values are modelled by the two-sorted inductive
  `DictNode`/`DictChildren`: an association sequence that preserves
  insertion order, with key assignment replacing an existing key's
  value in place and appending fresh keys at the end.
* A Python exception is modelled as `Option.none` (for the pure
  compaction engine) or as an error result carrying the state at the
  point of raising (for the delegation engine).
-/

set_option maxHeartbeats 1000000

namespace BackendCli

/-- Static metadata of one operation kind, one entry of `kFunctionInfoMap`:
`HasProfileParam`, `ModifiesFilter`, and (optionally) `NumParamsForMatch`. -/
structure FunctionInfo where
  hasProfileParam : Bool
  modifiesFilter : Bool
  numParamsForMatch : Option Nat
  deriving DecidableEq

/-- The operation registry `kFunctionInfoMap` of `backend_cli.py`,
transcribed entry for entry in source order. -/
def kFunctionInfoMap : List (String × FunctionInfo) := [
  ("is_first_launch", ⟨false, false, none⟩),
  ("get_all_profile_names", ⟨false, false, none⟩),
  ("create_new_profile", ⟨false, false, none⟩),
  ("set_active_profile", ⟨false, false, none⟩),
  ("import_downloaded_filter", ⟨true, false, none⟩),
  ("run_batch", ⟨true, false, none⟩),
  ("get_rule_matching_item", ⟨true, false, none⟩),
  ("set_rule_visibility", ⟨true, true, some 2⟩),
  ("set_currency_to_tier", ⟨true, true, some 1⟩),
  ("get_tier_of_currency", ⟨true, false, none⟩),
  ("get_all_currency_tiers", ⟨true, false, none⟩),
  ("set_currency_tier_min_visible_stack_size", ⟨true, true, some 1⟩),
  ("get_currency_tier_min_visible_stack_size", ⟨true, false, none⟩),
  ("set_archnemesis_mod_tier", ⟨true, true, some 1⟩),
  ("get_all_archnemesis_mod_tiers", ⟨true, false, none⟩),
  ("get_all_essence_tier_visibilities", ⟨true, false, none⟩),
  ("set_hide_essences_above_tier", ⟨true, true, some 0⟩),
  ("get_hide_essences_above_tier", ⟨true, false, none⟩),
  ("get_all_div_card_tier_visibilities", ⟨true, false, none⟩),
  ("set_hide_div_cards_above_tier", ⟨true, true, some 0⟩),
  ("get_hide_div_cards_above_tier", ⟨true, false, none⟩),
  ("get_all_unique_item_tier_visibilities", ⟨true, false, none⟩),
  ("set_hide_unique_items_above_tier", ⟨true, true, some 0⟩),
  ("get_hide_unique_items_above_tier", ⟨true, false, none⟩),
  ("get_all_unique_map_tier_visibilities", ⟨true, false, none⟩),
  ("set_hide_unique_maps_above_tier", ⟨true, true, some 0⟩),
  ("get_hide_unique_maps_above_tier", ⟨true, false, none⟩),
  ("set_lowest_visible_oil", ⟨true, true, some 0⟩),
  ("get_lowest_visible_oil", ⟨true, false, none⟩),
  ("set_gem_min_quality", ⟨true, true, some 0⟩),
  ("get_gem_min_quality", ⟨true, false, none⟩),
  ("set_flask_min_quality", ⟨true, true, some 0⟩),
  ("get_flask_min_quality", ⟨true, false, none⟩),
  ("set_hide_maps_below_tier", ⟨true, true, some 0⟩),
  ("get_hide_maps_below_tier", ⟨true, false, none⟩),
  ("set_flask_visibility", ⟨true, true, some 1⟩),
  ("set_high_ilvl_flask_visibility", ⟨true, true, some 1⟩),
  ("get_flask_visibility", ⟨true, false, none⟩),
  ("get_all_flask_visibilities", ⟨true, false, some 0⟩),
  ("set_rgb_item_max_size", ⟨true, true, some 0⟩),
  ("get_rgb_item_max_size", ⟨true, false, none⟩),
  ("set_chaos_recipe_enabled_for", ⟨true, true, some 1⟩),
  ("is_chaos_recipe_enabled_for", ⟨true, false, none⟩),
  ("get_all_chaos_recipe_statuses", ⟨true, false, none⟩)]

/-- First-match association lookup, the behaviour of a Python dict
indexing operation (`kFunctionInfoMap[function_name]`); `none` models the
`KeyError` raised for an unregistered kind. -/
def assocLookup (k : String) : List (String × FunctionInfo) → Option FunctionInfo
  | [] => none
  | (k', v) :: rest => if k' = k then some v else assocLookup k rest

/-- Lookup `kFunctionInfoMap[name]`, with `none` modelling `KeyError`. -/
def lookupInfo (name : String) : Option FunctionInfo :=
  assocLookup name kFunctionInfoMap

/-- Lookup `kFunctionInfoMap[name]['NumParamsForMatch']`, with `none` modelling a
`KeyError` on either the outer or the inner dict access. -/
def lookupNumParamsForMatch (name : String) : Option Nat :=
  (lookupInfo name).bind (fun info => info.numParamsForMatch)

mutual
/-- One value slot of the parsed-changes `OrderedDict` chain: either the
final trailing parameter (a plain string leaf, as stored by
`AddFunctionToChangesDict` at `i == num_params_for_match`) or a nested
ordered mapping. -/
inductive DictNode where
  | leaf (value : String)
  | branch (children : DictChildren)

/-- An insertion-ordered association sequence of keys to nodes, the
model of one `OrderedDict` level of `parsed_changes_dict`. -/
inductive DictChildren where
  | nil
  | cons (key : String) (node : DictNode) (rest : DictChildren)
end

namespace DictChildren

/-- Membership test plus retrieval: `current_dict[current_token]` after a
`current_token in current_dict` guard (first matching key). -/
def find : DictChildren → String → Option DictNode
  | .nil, _ => none
  | .cons k' n rest, k => if k' = k then some n else rest.find k

/-- The `OrderedDict` key assignment: an existing key keeps its position and
gets the new value; a fresh key is appended at the end. -/
def set : DictChildren → String → DictNode → DictChildren
  | .nil, k, v => .cons k v .nil
  | .cons k' n rest, k, v =>
      if k' = k then .cons k' v rest else .cons k' n (rest.set k v)

/-- Concatenation of two association sequences. -/
def append : DictChildren → DictChildren → DictChildren
  | .nil, other => other
  | .cons k n rest, other => .cons k n (rest.append other)

end DictChildren

/-- The nested-insertion walk of `AddFunctionToChangesDict`, driven by the
key path `function_tokens[0 .. num_params_for_match]`: at the last key the
leaf is assigned (overwriting whatever was there, in place); at an earlier
key the walk descends, creating a fresh empty level at the end when the
key is absent.  Descending into a string where a mapping is expected (a
`str` indexing/assignment `TypeError` in Python) is modelled as `none`. -/
def insertPath : List String → String → DictChildren → Option DictChildren
  | [], _, _ => none
  | [k], v, ch => some (ch.set k (.leaf v))
  | k :: k2 :: rest, v, ch =>
      match ch.find k with
      | none =>
          match insertPath (k2 :: rest) v .nil with
          | none => none
          | some sub => some (ch.append (.cons k (.branch sub) .nil))
      | some (.leaf _) => none
      | some (.branch sub) =>
          match insertPath (k2 :: rest) v sub with
          | none => none
          | some sub' => some (ch.set k (.branch sub'))

/-- The function `AddFunctionToChangesDict(function_tokens, changes_dict)`.  The key
path is `function_tokens[0]` (the kind) followed by the first
`NumParamsForMatch` parameters; the stored leaf is the next token.
`none` models the Python exceptions: `IndexError` on a too-short token
list, `KeyError` on an unregistered kind or a kind without
`NumParamsForMatch`. -/
def addFunctionToChangesDict (function_tokens : List String)
    (changes_dict : DictChildren) : Option DictChildren :=
  match function_tokens with
  | [] => none
  | function_name :: _ =>
      match lookupNumParamsForMatch function_name with
      | none => none
      | some num_params_for_match =>
          match function_tokens[num_params_for_match + 1]? with
          | none => none
          | some value =>
              insertPath (function_tokens.take (num_params_for_match + 1))
                value changes_dict

mutual
/-- The function `ConvertChangesDictToFunctionListRec` on a value slot: a leaf
terminates the branch with `current_prefix_list + [last_param]`; a nested
mapping recurses over its items in insertion order. -/
def convertChangesDictToFunctionListRec :
    DictNode → List String → List (List String)
  | .leaf last_param, current_prefix_list => [current_prefix_list ++ [last_param]]
  | .branch children, current_prefix_list =>
      convertChangesChildrenRec children current_prefix_list

/-- The `for param, subdict in changes_dict.items()` loop of
`ConvertChangesDictToFunctionListRec`. -/
def convertChangesChildrenRec :
    DictChildren → List String → List (List String)
  | .nil, _ => []
  | .cons param subdict rest, current_prefix_list =>
      convertChangesDictToFunctionListRec subdict (current_prefix_list ++ [param])
        ++ convertChangesChildrenRec rest current_prefix_list
end

/-- The function `ConvertChangesDictToFunctionList`: flatten the parsed changes dict
via pre-order traversal.  (The Python function additionally re-joins each
token list into a quoted line through `helper.JoinParams`; tokenization is
out of scope, so the token lists themselves are returned.) -/
def convertChangesDictToFunctionList (changes_dict : DictChildren) :
    List (List String) :=
  convertChangesChildrenRec changes_dict []

/-- The `for line in changes_lines_list` parsing loop of
`UpdateProfileChangesFile`: fold every existing log line into the
changes dict, propagating any raised exception. -/
def foldInsert : List (List String) → DictChildren → Option DictChildren
  | [], acc => some acc
  | tokens :: rest, acc =>
      match addFunctionToChangesDict tokens acc with
      | none => none
      | some acc' => foldInsert rest acc'

/-- The function `UpdateProfileChangesFile(changes_fullpath, new_function_name,
new_function_params)`, with the changes file contents passed in and the
rewritten contents returned.  The file is parsed line by line into an
`OrderedDict` chain, the new function is inserted by the same procedure
(which by construction overwrites a matching function's trailing value in
place), and the flattened tree is the rewritten file.  The source's
intermediate match-detection block computes `match_flag` and
`matched_rule_tokens_list` but never uses them; it raises only in
situations where the subsequent insertion also raises, so `none` covers
both.  `none` models any raised exception (the fatal corrupt-change-log
conditions). -/
def updateProfileChangesFile (changes_lines : List (List String))
    (new_function_name : String) (new_function_params : List String) :
    Option (List (List String)) :=
  match foldInsert changes_lines .nil with
  | none => none
  | some parsed_changes_dict =>
      match addFunctionToChangesDict (new_function_name :: new_function_params)
          parsed_changes_dict with
      | none => none
      | some parsed_changes_dict' =>
          some (convertChangesDictToFunctionList parsed_changes_dict')

/-- Auxiliary for stating properties: follow a key path through the
parsed changes dict and return the node there, if any. -/
def findPath : DictChildren → List String → Option DictNode
  | _, [] => none
  | ch, [k] => ch.find k
  | ch, k :: k2 :: rest =>
      match ch.find k with
      | some (.branch sub) => findPath sub (k2 :: rest)
      | _ => none

/-- Auxiliary for stating properties: the leaf value stored in a
(re-parsed) flattened change log under a given key path. -/
def logLeaf (changes_lines : List (List String)) (keys : List String) :
    Option String :=
  match foldInsert changes_lines .nil with
  | none => none
  | some d =>
      match findPath d keys with
      | some (.leaf v) => some v
      | _ => none

/-! ### Entry lists: the paths and leaf values stored in a changes dict -/
mutual
/-- The (argument-path, leaf-value) pairs stored under a value slot, in
pre-order over key insertion order. -/
def nodeEntries : DictNode → List (List String × String)
  | .leaf v => [([], v)]
  | .branch ch => childrenEntries ch

/-- The (key-path, leaf-value) pairs stored in an ordered mapping. -/
def childrenEntries : DictChildren → List (List String × String)
  | .nil => []
  | .cons k n rest =>
      (nodeEntries n).map (fun e => (k :: e.1, e.2)) ++ childrenEntries rest
end

/-! ### Well-formedness of changes dicts with respect to the registry -/
/-- Emptiness test for an association sequence. -/
def DictChildren.isNilB : DictChildren → Bool
  | .nil => true
  | .cons _ _ _ => false

mutual
/-- A value slot is well-formed at depth `d` when exactly `d` more keys
separate it from its leaves, sibling keys are distinct, and no level is
an empty mapping.  This is the shape `AddFunctionToChangesDict` produces
for a kind whose `NumParamsForMatch` is `d` (below the kind key). -/
def nodeGoodB : Nat → DictNode → Bool
  | 0, .leaf _ => true
  | _ + 1, .leaf _ => false
  | 0, .branch _ => false
  | d + 1, .branch ch => !ch.isNilB && childrenGoodB d ch

/-- All children of a level are well-formed at depth `d`, with distinct
keys. -/
def childrenGoodB : Nat → DictChildren → Bool
  | _, .nil => true
  | d, .cons k n rest =>
      (rest.find k).isNone && nodeGoodB d n && childrenGoodB d rest
end

/-- A whole parsed changes dict is well-formed: the top level is keyed by
registered kinds with distinct names, and the subtree of each kind has
depth equal to its `NumParamsForMatch`. -/
def topGoodB : DictChildren → Bool
  | .nil => true
  | .cons k n rest =>
      (rest.find k).isNone &&
      (match lookupNumParamsForMatch k with
       | none => false
       | some npm => nodeGoodB npm n) &&
      topGoodB rest

/-! ### Re-parsing a flattened log rebuilds the same changes dict -/
/-- Insert a list of (key-path, leaf-value) entries in order, the spine of
the parsing loop of `UpdateProfileChangesFile`. -/
def insertAll : List (List String × String) → DictChildren → Option DictChildren
  | [], ch => some ch
  | e :: rest, ch =>
      match insertPath e.1 e.2 ch with
      | none => none
      | some ch' => insertAll rest ch'

/-! ### Overwriting one leaf rewrites exactly one entry, in place -/
mutual
/-- Key distinctness at every level of a value slot. -/
def nodeNodupB : DictNode → Bool
  | .leaf _ => true
  | .branch ch => childrenNodupB ch

/-- Key distinctness at every level of an ordered mapping. -/
def childrenNodupB : DictChildren → Bool
  | .nil => true
  | .cons k n rest => (rest.find k).isNone && nodeNodupB n && childrenNodupB rest
end

/-- A concrete well-formed changes dict with three logged operations of
two kinds, used to instantiate C2. -/
def exampleDict2 : DictChildren :=
  .cons "set_currency_to_tier"
    (.branch (.cons "Chromatic Orb" (.leaf "5")
      (.cons "Chaos Orb" (.leaf "3") .nil)))
    (.cons "set_gem_min_quality" (.leaf "20") .nil)

/-! ### Claim C7: malformed existing log lines -/
/-- A log line that makes `AddFunctionToChangesDict` raise: empty, an
unregistered kind (or one without `NumParamsForMatch`), or fewer than
`NumParamsForMatch + 2` tokens.  A line with MORE tokens than its kind
needs is not in this class: the source silently ignores the extra
trailing tokens. -/
def corruptLineB (line : List String) : Bool :=
  match line with
  | [] => true
  | nm :: _ =>
      match lookupNumParamsForMatch nm with
      | none => true
      | some npm => decide (line.length < npm + 2)

/-! ### The batch/replay delegation engine `DelegateFunctionCall`

The artifact (`loot_filter`) and its per-operation methods are external
collaborators: the design document specifies them only at their
interface.  They are modelled by an abstract `Collaborator`, and each
side effect of the engine (rewriting the profile changes file, invoking
an artifact capability, persisting via `SaveToFile`, writing or appending
to `backend_cli.output`) is recorded in an event trace carried by the
state.  A raised Python exception is an error result carrying the state
at the point of raising. -/
/-- The distinguishable failure conditions of one `DelegateFunctionCall`.
`outOfFuel` is not a source error: it marks that the recursion-depth
budget of the embedding was exceeded. -/
inductive ExecError where
  | outOfFuel
  | unknownOperation
  | corruptChangeLog
  | functionNotFound
  | arityMismatch
  | collaborator
  | emptyLineUnpack
  | stringIndexError
  deriving DecidableEq

/-- One observable side effect of the engine. -/
inductive Event where
  | writeChanges (lines : List (List String))
  | applyImport
  | applyOp (name : String) (params : List String)
  | saveFilter
  | writeOutput (text : String)
  | appendOutput (text : String)
  deriving DecidableEq

/-- The file-system-visible state: the profile changes file (token
lists), the contents of `backend_cli.output`, and the trace of effects
performed so far. -/
structure St where
  changes : List (List String)
  output : String
  events : List Event
  deriving DecidableEq

/-- Result of one `DelegateFunctionCall`: normal return, or a raised
exception together with the state at the point of raising. -/
inductive DResult where
  | ok (st : St)
  | err (e : ExecError) (st : St)
  deriving DecidableEq

/-- Result of the dispatch part of `DelegateFunctionCall` (everything
between the logging prologue and the output/save epilogue): the
`output_string` plus the updated state, or a raised exception. -/
inductive DispatchResult where
  | dok (output_string : String) (st : St)
  | derr (e : ExecError) (st : St)

/-- The external artifact/profile collaborator interface: `apply` covers
every per-operation capability not modelled in detail (its result is the
branch's `output_string`; `none` is a raised exception), the rest are the
collaborator methods and `consts` values used by the three aggregate
getters modelled in detail, plus the `FileExists` probe used by
`import_downloaded_filter only_if_missing`. -/
structure Collaborator where
  apply : String → List String → Option String
  getAllCurrencyInTier : Nat → List String
  getAllArchnemesisModsInTier : Nat → List String
  getEssenceTierIsShow : Nat → Bool
  kNumCurrencyTiersExcludingScrolls : Nat
  kNumArchnemesisTiers : Nat
  kNumEssenceTiers : Nat
  outputFilterExists : Bool

/-- The operation kinds whose dispatch branches are modelled explicitly
rather than through `Collaborator.apply`. -/
def kSpeciallyModeledNames : List String :=
  ["import_downloaded_filter", "run_batch", "get_all_currency_tiers",
   "get_all_archnemesis_mod_tiers", "get_all_essence_tier_visibilities"]

/-- The registered kinds that reach the generic collaborator-delegation
branch: every registry entry except the specially modelled ones.  A name
outside `kFunctionInfoMap` never reaches dispatch (the prologue's
registry lookup raises first), and `run_batch` inside a batch falls past
every branch to the unmatched-name error. -/
def kOtherHandledNames : List String :=
  (kFunctionInfoMap.map Prod.fst).filter
    (fun n => !(kSpeciallyModeledNames.contains n))

/-- The `get_all_currency_tiers` output loop: for each tier `1` to
`kNumCurrencyTiersExcludingScrolls`, one `<name>;<tier>\n` chunk per
currency name in the tier. -/
def currencyTiersOutput (collab : Collaborator) : String :=
  (List.range' 1 collab.kNumCurrencyTiersExcludingScrolls).foldl
    (fun acc tier => acc ++ String.join
      ((collab.getAllCurrencyInTier tier).map
        (fun currency_name => currency_name ++ ";" ++ toString tier ++ "\n")))
    ""

/-- The `get_all_archnemesis_mod_tiers` output loop: `range(1,
kNumArchnemesisTiers)` omits the last (hide-all) tier. -/
def archnemesisTiersOutput (collab : Collaborator) : String :=
  (List.range' 1 (collab.kNumArchnemesisTiers - 1)).foldl
    (fun acc tier => acc ++ String.join
      ((collab.getAllArchnemesisModsInTier tier).map
        (fun mod_name => mod_name ++ ";" ++ toString tier ++ "\n")))
    ""

/-- The `get_all_essence_tier_visibilities` output loop. -/
def essenceTierVisibilitiesOutput (collab : Collaborator) : String :=
  (List.range' 1 collab.kNumEssenceTiers).foldl
    (fun acc tier => acc ++ (toString tier ++ ";" ++
      (if collab.getEssenceTierIsShow tier then "1" else "0") ++ "\n"))
    ""

/-- The unguarded final-newline trim
`if (output_string[-1] == '\n'): output_string = output_string[:-1]`:
indexing position `-1` of an empty string raises `IndexError`, modelled
as `none`. -/
def trimFinalNewlineUnguarded (s : String) : Option String :=
  if s = "" then none
  else if s.back = '\n' then some (s.dropRight 1) else some s

/-- The guarded trim used only by `get_all_archnemesis_mod_tiers`:
`if ((len(output_string) > 0) and (output_string[-1] == '\n'))`. -/
def trimFinalNewlineGuarded (s : String) : String :=
  if s.length > 0 && (s.back = '\n') then s.dropRight 1 else s

/-- The `import_flag` computation of the `import_downloaded_filter`
branch: `only_if_missing` probes the output filter file; no argument
keeps the flag `True`; anything else fails `CheckNumParams`. -/
def importFlagOf (collab : Collaborator) (params : List String) :
    Option Bool :=
  match params with
  | [] => some true
  | [p] => if p = "only_if_missing" then some (!collab.outputFilterExists)
           else none
  | _ => none

/-- The replay loop of `import_downloaded_filter`: tokenize each changes
line (`ValueError` on an empty one) and execute it recursively. -/
def replayLoop (exec : String → List String → St → DResult) :
    List (List String) → St → DResult
  | [], st => .ok st
  | [] :: _, st => .err .emptyLineUnpack st
  | (n :: ps) :: rest, st =>
      match exec n ps st with
      | .err e s => .err e s
      | .ok st' => replayLoop exec rest st'

/-- The batch loop of `run_batch`: skip blank lines, look up each named
kind (`KeyError` if unregistered), accumulate the `contains_mutator`
flag, and execute recursively. -/
def batchLoop (exec : String → List String → St → DResult) :
    List (List String) → Bool → St → Bool × DResult
  | [], contains_mutator, st => (contains_mutator, .ok st)
  | [] :: rest, contains_mutator, st => batchLoop exec rest contains_mutator st
  | (n :: ps) :: rest, contains_mutator, st =>
      match lookupInfo n with
      | none => (contains_mutator, .err .unknownOperation st)
      | some info =>
          match exec n ps st with
          | .err e s => (contains_mutator || info.modifiesFilter, .err e s)
          | .ok st' =>
              batchLoop exec rest (contains_mutator || info.modifiesFilter) st'

/-- The branch dispatch of `DelegateFunctionCall`, between the logging
prologue and the output/save epilogue.  `exec` performs a recursive call
(always with `in_batch = True`; its boolean argument is
`suppress_output`). -/
def runDispatch (collab : Collaborator) (inputLines : List (List String))
    (exec : String → List String → Bool → St → DResult)
    (name : String) (params : List String) (inBatch : Bool) (st : St) :
    DispatchResult :=
  if name = "import_downloaded_filter" then
    match importFlagOf collab params with
    | none => .derr .arityMismatch st
    | some false => .dok "" st
    | some true =>
        let st1 : St := { st with events := st.events ++ [.applyImport] }
        match replayLoop (fun n ps s => exec n ps true s) st1.changes st1 with
        | .err e s => .derr e s
        | .ok st2 =>
            .dok "" { st2 with events := st2.events ++ [.saveFilter] }
  else if name = "run_batch" && !inBatch then
    match params with
    | _ :: _ => .derr .arityMismatch st
    | [] =>
        let st1 : St :=
          { st with output := "", events := st.events ++ [.writeOutput ""] }
        match batchLoop (fun n ps s => exec n ps false s) inputLines false st1 with
        | (_, .err e s) => .derr e s
        | (contains_mutator, .ok st2) =>
            if contains_mutator then
              .dok "" { st2 with events := st2.events ++ [.saveFilter] }
            else .dok "" st2
  else if name = "get_all_currency_tiers" then
    match params with
    | _ :: _ => .derr .arityMismatch st
    | [] =>
        match trimFinalNewlineUnguarded (currencyTiersOutput collab) with
        | none => .derr .stringIndexError st
        | some out => .dok out st
  else if name = "get_all_archnemesis_mod_tiers" then
    match params with
    | _ :: _ => .derr .arityMismatch st
    | [] => .dok (trimFinalNewlineGuarded (archnemesisTiersOutput collab)) st
  else if name = "get_all_essence_tier_visibilities" then
    match params with
    | _ :: _ => .derr .arityMismatch st
    | [] =>
        match trimFinalNewlineUnguarded (essenceTierVisibilitiesOutput collab) with
        | none => .derr .stringIndexError st
        | some out => .dok out st
  else if kOtherHandledNames.contains name then
    match collab.apply name params with
    | none => .derr .collaborator st
    | some out =>
        .dok out { st with events := st.events ++ [.applyOp name params] }
  else .derr .functionNotFound st

/-- The mutator logging prologue of `DelegateFunctionCall`: if the kind
modifies the filter and `suppress_output` is false, rewrite the profile
changes file before doing anything else (`none` propagates the raised
corrupt-change-log exception). -/
def logMutationStep (info : FunctionInfo) (name : String)
    (params : List String) (suppressOutput : Bool) (st : St) : Option St :=
  if info.modifiesFilter && !suppressOutput then
    match updateProfileChangesFile st.changes name params with
    | none => none
    | some changes' =>
        some ⟨changes', st.output, st.events ++ [.writeChanges changes']⟩
  else some st

/-- The output/save epilogue of `DelegateFunctionCall`: in a batch,
append the output (unless suppressed); otherwise write the output file
(except for `run_batch` itself, which wrote incrementally) and persist
the artifact if the kind is a mutator. -/
def outputSaveEpilogue (info : FunctionInfo) (name : String)
    (inBatch suppressOutput : Bool) (output_string : String) (st2 : St) :
    DResult :=
  if inBatch then
    if suppressOutput then .ok st2
    else .ok ⟨st2.changes, st2.output ++ (output_string ++ "\n@\n"),
      st2.events ++ [.appendOutput output_string]⟩
  else
    let st3 : St := if name = "run_batch" then st2
      else ⟨st2.changes, output_string, st2.events ++ [.writeOutput output_string]⟩
    if info.modifiesFilter then
      .ok ⟨st3.changes, st3.output, st3.events ++ [.saveFilter]⟩
    else .ok st3

/-- One level of `DelegateFunctionCall`: registry lookup (`KeyError` for
an unregistered kind), the mutator logging prologue, branch dispatch,
then the output/save epilogue. -/
def delegateCore (collab : Collaborator) (inputLines : List (List String))
    (exec : String → List String → Bool → St → DResult)
    (name : String) (params : List String)
    (inBatch suppressOutput : Bool) (st : St) : DResult :=
  match lookupInfo name with
  | none => .err .unknownOperation st
  | some info =>
      match logMutationStep info name params suppressOutput st with
      | none => .err .corruptChangeLog st
      | some st1 =>
          match runDispatch collab inputLines exec name params inBatch st1 with
          | .derr e s => .err e s
          | .dok output_string st2 =>
              outputSaveEpilogue info name inBatch suppressOutput
                output_string st2

/-- The function `DelegateFunctionCall(loot_filter, name, params, in_batch,
suppress_output)`, with a fuel bound on the recursion depth: `fuel` is
the number of nesting levels allowed including the current call, so a
result other than `err .outOfFuel` at fuel `d` means the call tree is at
most `d` levels deep. -/
def delegate (collab : Collaborator) (inputLines : List (List String)) :
    Nat → String → List String → Bool → Bool → St → DResult
  | 0, _, _, _, _, st => .err .outOfFuel st
  | fuel + 1, name, params, inBatch, suppressOutput, st =>
      delegateCore collab inputLines
        (fun n ps so s => delegate collab inputLines fuel n ps true so s)
        name params inBatch suppressOutput st

/-- A batch input line naming neither the batch operation nor replay-all
(blank lines count as leaves: they are skipped). -/
def lineIsLeafB : List String → Bool
  | [] => true
  | n :: _ => !(n == "run_batch") && !(n == "import_downloaded_filter")

/-- A batch input line that names a registered mutating kind. -/
def lineIsMutatorB : List String → Bool
  | [] => false
  | n :: _ =>
      match lookupInfo n with
      | some info => info.modifiesFilter
      | none => false

/-- Number of artifact persists (`SaveToFile` calls) in a trace. -/
def countSaves : List Event → Nat
  | [] => 0
  | .saveFilter :: rest => countSaves rest + 1
  | _ :: rest => countSaves rest

/-- The texts of the `AppendFunctionOutput` calls in a trace, in order. -/
def appendTexts : List Event → List String
  | [] => []
  | .appendOutput s :: rest => s :: appendTexts rest
  | _ :: rest => appendTexts rest

/-- A collaborator whose artifact holds no currency, no archnemesis mods
and no essence tiers, instantiating C9. -/
def collabEmpty : Collaborator where
  apply := fun _ _ => some ""
  getAllCurrencyInTier := fun _ => []
  getAllArchnemesisModsInTier := fun _ => []
  getEssenceTierIsShow := fun _ => false
  kNumCurrencyTiersExcludingScrolls := 9
  kNumArchnemesisTiers := 4
  kNumEssenceTiers := 0
  outputFilterExists := false

/-- A collaborator every one of whose artifact capabilities raises. -/
def collabFail : Collaborator :=
  { collabEmpty with apply := fun _ _ => none }

/-! ### Claim C4: recursion depth -/
/-- Whether a result is the embedding's exceeded-depth marker. -/
def isOutOfFuel : DResult → Bool
  | .err .outOfFuel _ => true
  | _ => false

/-! ### Claims C3 and C8: batch persistence and batch response shape -/
/-- The response text produced by a sequence of `AppendFunctionOutput`
calls: each result text followed by the sentinel line `@`. -/
def concatAppended : List String → String
  | [] => ""
  | s :: rest => s ++ "\n@\n" ++ concatAppended rest

/-- A collaborator whose every capability returns the text `7`. -/
def collabSeven : Collaborator :=
  { collabEmpty with apply := fun _ _ => some "7" }

/-! ## Theorems -/

/-! ### Basic lemmas about the ordered association sequences -/
namespace DictChildren

theorem find_set : ∀ (ch : DictChildren) (k : String) (v : DictNode),
    (ch.set k v).find k = some v
  | .nil, k, v => by simp [set, find]
  | .cons k' n rest, k, v => by
      by_cases h : k' = k <;> simp [set, find, h, find_set rest k v]

theorem find_set_ne : ∀ (ch : DictChildren) (k k' : String) (v : DictNode),
    k ≠ k' → (ch.set k v).find k' = ch.find k'
  | .nil, k, k', v, h => by simp [set, find, h]
  | .cons k0 n rest, k, k', v, h => by
      by_cases h0 : k0 = k
      · simp [set, find, h0, h]
      · by_cases h1 : k0 = k'
        · have hk : ¬k' = k := by rw [← h1]; exact h0
          simp [set, find, h0, h1, hk]
        · simp [set, find, h0, h1, find_set_ne rest k k' v h]

theorem set_set : ∀ (ch : DictChildren) (k : String) (a b : DictNode),
    (ch.set k a).set k b = ch.set k b
  | .nil, k, a, b => by simp [set]
  | .cons k' n rest, k, a, b => by
      by_cases h : k' = k <;> simp [set, h, set_set rest k a b]

theorem set_self : ∀ (ch : DictChildren) (k : String) (n : DictNode),
    ch.find k = some n → ch.set k n = ch
  | .nil, k, n, h => by simp [find] at h
  | .cons k' m rest, k, n, h => by
      by_cases h0 : k' = k
      · subst h0; simp [find] at h; simp [set, h]
      · simp [find, h0] at h; simp [set, h0, set_self rest k n h]

theorem append_nil : ∀ (ch : DictChildren), ch.append .nil = ch
  | .nil => rfl
  | .cons k n rest => by simp [append, append_nil rest]

theorem append_assoc : ∀ (a b c : DictChildren),
    (a.append b).append c = a.append (b.append c)
  | .nil, _, _ => rfl
  | .cons k n rest, b, c => by simp [append, append_assoc rest b c]

theorem find_append : ∀ (a b : DictChildren) (k : String),
    (a.append b).find k = match a.find k with
      | some n => some n
      | none => b.find k
  | .nil, b, k => by simp [append, find]
  | .cons k' n rest, b, k => by
      by_cases h : k' = k <;> simp [append, find, h, find_append rest b k]

theorem find_append_single (a : DictChildren) (k : String) (v : DictNode)
    (h : a.find k = none) :
    (a.append (.cons k v .nil)).find k = some v := by
  simp [find_append, h, find]

theorem set_fresh : ∀ (a : DictChildren) (k : String) (v : DictNode),
    a.find k = none → a.set k v = a.append (.cons k v .nil)
  | .nil, k, v, _ => by simp [set, append]
  | .cons k' n rest, k, v, h => by
      by_cases h0 : k' = k
      · simp [find, h0] at h
      · simp [find, h0] at h; simp [set, append, h0, set_fresh rest k v h]

theorem set_append_single (a : DictChildren) (k : String) (v w : DictNode)
    (h : a.find k = none) :
    (a.append (.cons k v .nil)).set k w = a.append (.cons k w .nil) := by
  rw [← set_fresh a k v h, set_set, set_fresh a k w h]

end DictChildren

mutual
theorem convertRec_eq_entries : ∀ (n : DictNode) (pfx : List String),
    convertChangesDictToFunctionListRec n pfx
      = (nodeEntries n).map (fun e => pfx ++ e.1 ++ [e.2])
  | .leaf v, pfx => by
      simp [convertChangesDictToFunctionListRec, nodeEntries]
  | .branch ch, pfx => by
      simp [convertChangesDictToFunctionListRec, nodeEntries,
        convertChildrenRec_eq_entries ch pfx]

theorem convertChildrenRec_eq_entries : ∀ (ch : DictChildren) (pfx : List String),
    convertChangesChildrenRec ch pfx
      = (childrenEntries ch).map (fun e => pfx ++ e.1 ++ [e.2])
  | .nil, pfx => by simp [convertChangesChildrenRec, childrenEntries]
  | .cons k n rest, pfx => by
      simp [convertChangesChildrenRec, childrenEntries,
        convertRec_eq_entries n (pfx ++ [k]),
        convertChildrenRec_eq_entries rest pfx, List.map_map]
end

theorem convert_eq_entries (ch : DictChildren) :
    convertChangesDictToFunctionList ch
      = (childrenEntries ch).map (fun e => e.1 ++ [e.2]) := by
  simp [convertChangesDictToFunctionList, convertChildrenRec_eq_entries]

theorem childrenGood_find : ∀ (ch : DictChildren) (d : Nat) (k : String)
    (n : DictNode), childrenGoodB d ch = true → ch.find k = some n →
    nodeGoodB d n = true
  | .cons k' m rest, d, k, n, hg, hf => by
      simp [childrenGoodB, Bool.and_eq_true] at hg
      by_cases h : k' = k
      · simp [DictChildren.find, h] at hf; rw [← hf]; exact hg.1.2
      · simp [DictChildren.find, h] at hf
        exact childrenGood_find rest d k n hg.2 hf

theorem topGood_find : ∀ (ch : DictChildren) (k : String) (n : DictNode),
    topGoodB ch = true → ch.find k = some n →
    ∃ npm, lookupNumParamsForMatch k = some npm ∧ nodeGoodB npm n = true
  | .cons k' m rest, k, n, hg, hf => by
      simp [topGoodB, Bool.and_eq_true] at hg
      by_cases h : k' = k
      · simp [DictChildren.find, h] at hf
        obtain ⟨⟨-, h2⟩, -⟩ := hg
        subst h
        cases hnpm : lookupNumParamsForMatch k' with
        | none => rw [hnpm] at h2; simp at h2
        | some npm => rw [hnpm] at h2; exact ⟨npm, rfl, hf ▸ h2⟩
      · simp [DictChildren.find, h] at hf
        exact topGood_find rest k n hg.2 hf

theorem childrenGood_set : ∀ (ch : DictChildren) (d : Nat) (k : String)
    (n : DictNode), childrenGoodB d ch = true → nodeGoodB d n = true →
    childrenGoodB d (ch.set k n) = true
  | .nil, d, k, n, _, hn => by
      simp [DictChildren.set, childrenGoodB, DictChildren.find, hn]
  | .cons k' m rest, d, k, n, hg, hn => by
      simp [childrenGoodB, Bool.and_eq_true] at hg
      by_cases h : k' = k
      · subst h
        simp [DictChildren.set, childrenGoodB, Bool.and_eq_true]
        exact ⟨⟨hg.1.1, hn⟩, hg.2⟩
      · simp [DictChildren.set, h, childrenGoodB, Bool.and_eq_true]
        refine ⟨⟨?_, hg.1.2⟩, childrenGood_set rest d k n hg.2 hn⟩
        rw [DictChildren.find_set_ne rest k k' n (fun hk => h hk.symm)]
        exact hg.1.1

theorem topGood_set : ∀ (ch : DictChildren) (k : String) (npm : Nat)
    (n : DictNode), topGoodB ch = true →
    lookupNumParamsForMatch k = some npm → nodeGoodB npm n = true →
    topGoodB (ch.set k n) = true
  | .nil, k, npm, n, _, hl, hn => by
      simp [DictChildren.set, topGoodB, DictChildren.find, hl, hn]
  | .cons k' m rest, k, npm, n, hg, hl, hn => by
      simp [topGoodB, Bool.and_eq_true] at hg
      by_cases h : k' = k
      · subst h
        simp [DictChildren.set, topGoodB, Bool.and_eq_true, hl, hn]
        exact ⟨hg.1.1, hg.2⟩
      · simp [DictChildren.set, h, topGoodB, Bool.and_eq_true]
        refine ⟨⟨?_, ?_⟩, topGood_set rest k npm n hg.2 hl hn⟩
        · rw [DictChildren.find_set_ne rest k k' n (fun hk => h hk.symm)]
          exact hg.1.1
        · exact hg.1.2

theorem childrenGood_append_single : ∀ (ch : DictChildren) (d : Nat)
    (k : String) (n : DictNode), childrenGoodB d ch = true →
    ch.find k = none → nodeGoodB d n = true →
    childrenGoodB d (ch.append (.cons k n .nil)) = true
  | .nil, d, k, n, _, _, hn => by
      simp [DictChildren.append, childrenGoodB, DictChildren.find, hn]
  | .cons k' m rest, d, k, n, hg, hf, hn => by
      simp [childrenGoodB, Bool.and_eq_true] at hg
      by_cases h : k' = k
      · simp [DictChildren.find, h] at hf
      · simp [DictChildren.find, h] at hf
        simp [DictChildren.append, childrenGoodB, Bool.and_eq_true]
        refine ⟨⟨?_, hg.1.2⟩, childrenGood_append_single rest d k n hg.2 hf hn⟩
        rw [DictChildren.find_append, hg.1.1]
        have hkk : ¬k = k' := fun hk => h hk.symm
        simp [DictChildren.find, hkk]

theorem topGood_append_single : ∀ (ch : DictChildren) (k : String)
    (npm : Nat) (n : DictNode), topGoodB ch = true → ch.find k = none →
    lookupNumParamsForMatch k = some npm → nodeGoodB npm n = true →
    topGoodB (ch.append (.cons k n .nil)) = true
  | .nil, k, npm, n, _, _, hl, hn => by
      simp [DictChildren.append, topGoodB, DictChildren.find, hl, hn]
  | .cons k' m rest, k, npm, n, hg, hf, hl, hn => by
      simp [topGoodB, Bool.and_eq_true] at hg
      by_cases h : k' = k
      · simp [DictChildren.find, h] at hf
      · simp [DictChildren.find, h] at hf
        simp [DictChildren.append, topGoodB, Bool.and_eq_true]
        refine ⟨⟨?_, hg.1.2⟩, topGood_append_single rest k npm n hg.2 hf hl hn⟩
        rw [DictChildren.find_append, hg.1.1]
        have hkk : ¬k = k' := fun hk => h hk.symm
        simp [DictChildren.find, hkk]

theorem set_not_nil (ch : DictChildren) (k : String) (n : DictNode) :
    (ch.set k n).isNilB = false := by
  cases ch with
  | nil => rfl
  | cons k' m rest =>
      simp only [DictChildren.set]
      by_cases h : k' = k <;> simp [h, DictChildren.isNilB]

theorem append_single_not_nil (ch : DictChildren) (k : String)
    (n : DictNode) : (ch.append (.cons k n .nil)).isNilB = false := by
  cases ch <;> simp [DictChildren.append, DictChildren.isNilB]

theorem insertPath_not_nil : ∀ (keys : List String) (v : String)
    (ch ch' : DictChildren), insertPath keys v ch = some ch' →
    ch'.isNilB = false
  | [k], v, ch, ch', h => by
      simp [insertPath] at h; rw [← h]; exact set_not_nil ch k (.leaf v)
  | k :: k2 :: rest, v, ch, ch', h => by
      simp only [insertPath] at h
      split at h
      · split at h
        · exact absurd h (by simp)
        · rename_i sub hs
          simp only [Option.some.injEq] at h
          rw [← h]; exact append_single_not_nil ch k (.branch sub)
      · exact absurd h (by simp)
      · rename_i sub
        split at h
        · exact absurd h (by simp)
        · rename_i sub' hs
          simp only [Option.some.injEq] at h
          rw [← h]; exact set_not_nil ch k (.branch sub')

theorem insertPath_good : ∀ (keys : List String) (d : Nat) (v : String)
    (ch ch' : DictChildren), keys.length = d + 1 →
    childrenGoodB d ch = true → insertPath keys v ch = some ch' →
    childrenGoodB d ch' = true
  | [k], d, v, ch, ch', hlen, hg, h => by
      simp at hlen
      subst hlen
      simp [insertPath] at h
      rw [← h]
      exact childrenGood_set ch 0 k (.leaf v) hg rfl
  | k :: k2 :: rest, d, v, ch, ch', hlen, hg, h => by
      obtain ⟨m, rfl⟩ : ∃ m, d = m + 1 := ⟨rest.length, by simpa using hlen.symm⟩
      have hlen2 : (k2 :: rest).length = m + 1 := by simpa using hlen
      simp only [insertPath] at h
      split at h
      · rename_i hf
        split at h
        · exact absurd h (by simp)
        · rename_i sub hs
          simp only [Option.some.injEq] at h
          rw [← h]
          refine childrenGood_append_single ch (m + 1) k (.branch sub) hg hf ?_
          simp [nodeGoodB, Bool.and_eq_true]
          exact ⟨insertPath_not_nil (k2 :: rest) v .nil sub hs,
            insertPath_good (k2 :: rest) m v .nil sub hlen2 rfl hs⟩
      · exact absurd h (by simp)
      · rename_i sub hf
        split at h
        · exact absurd h (by simp)
        · rename_i sub' hs
          simp only [Option.some.injEq] at h
          rw [← h]
          have hsubg : nodeGoodB (m + 1) (.branch sub) = true :=
            childrenGood_find ch (m + 1) k (.branch sub) hg hf
          simp [nodeGoodB, Bool.and_eq_true] at hsubg
          refine childrenGood_set ch (m + 1) k (.branch sub') hg ?_
          simp [nodeGoodB, Bool.and_eq_true]
          exact ⟨insertPath_not_nil (k2 :: rest) v sub sub' hs,
            insertPath_good (k2 :: rest) m v sub sub' hlen2 hsubg.2 hs⟩

theorem insertPath_top_good : ∀ (nm : String) (ks : List String) (v : String)
    (ch ch' : DictChildren) (npm : Nat),
    lookupNumParamsForMatch nm = some npm → ks.length = npm →
    topGoodB ch = true → insertPath (nm :: ks) v ch = some ch' →
    topGoodB ch' = true
  | nm, [], v, ch, ch', npm, hl, hlen, hg, h => by
      simp at hlen
      subst hlen
      simp [insertPath] at h
      rw [← h]
      exact topGood_set ch nm 0 (.leaf v) hg hl rfl
  | nm, k2 :: rest, v, ch, ch', npm, hl, hlen, hg, h => by
      obtain ⟨m, rfl⟩ : ∃ m, npm = m + 1 := ⟨rest.length, by simpa using hlen.symm⟩
      have hlen2 : (k2 :: rest).length = m + 1 := by simpa using hlen
      simp only [insertPath] at h
      split at h
      · rename_i hf
        split at h
        · exact absurd h (by simp)
        · rename_i sub hs
          simp only [Option.some.injEq] at h
          rw [← h]
          refine topGood_append_single ch nm (m + 1) (.branch sub) hg hf hl ?_
          simp [nodeGoodB, Bool.and_eq_true]
          exact ⟨insertPath_not_nil (k2 :: rest) v .nil sub hs,
            insertPath_good (k2 :: rest) m v .nil sub hlen2 rfl hs⟩
      · exact absurd h (by simp)
      · rename_i sub hf
        split at h
        · exact absurd h (by simp)
        · rename_i sub' hs
          simp only [Option.some.injEq] at h
          rw [← h]
          obtain ⟨npm', hl', hsubg⟩ :=
            topGood_find ch nm (.branch sub) hg hf
          rw [hl] at hl'
          obtain rfl : npm' = m + 1 := (Option.some.injEq _ _).mp hl'.symm
          simp [nodeGoodB, Bool.and_eq_true] at hsubg
          refine topGood_set ch nm (m + 1) (.branch sub') hg hl ?_
          simp [nodeGoodB, Bool.and_eq_true]
          exact ⟨insertPath_not_nil (k2 :: rest) v sub sub' hs,
            insertPath_good (k2 :: rest) m v sub sub' hlen2 hsubg.2 hs⟩

theorem addFunction_top_good (tokens : List String) (ch ch' : DictChildren)
    (hg : topGoodB ch = true)
    (h : addFunctionToChangesDict tokens ch = some ch') :
    topGoodB ch' = true := by
  cases tokens with
  | nil => simp [addFunctionToChangesDict] at h
  | cons nm rest =>
      simp only [addFunctionToChangesDict] at h
      split at h
      · exact absurd h (by simp)
      · rename_i npm hnpm
        split at h
        · exact absurd h (by simp)
        · rename_i v hv
          have hlt : npm + 1 < (nm :: rest).length := by
            by_contra hc
            rw [List.getElem?_eq_none (by omega)] at hv
            exact absurd hv (by simp)
          rw [List.take_succ_cons] at h
          refine insertPath_top_good nm (rest.take npm) v ch ch' npm hnpm ?_ hg h
          simp at hlt
          simp [List.length_take]
          omega

theorem foldInsert_top_good : ∀ (lines : List (List String))
    (acc d : DictChildren), topGoodB acc = true →
    foldInsert lines acc = some d → topGoodB d = true
  | [], acc, d, hg, h => by
      simp [foldInsert] at h
      rw [← h]; exact hg
  | tokens :: rest, acc, d, hg, h => by
      simp only [foldInsert] at h
      split at h
      · exact absurd h (by simp)
      · rename_i acc' ha
        exact foldInsert_top_good rest acc' d
          (addFunction_top_good tokens acc acc' hg ha) h

theorem insertPath_idem : ∀ (keys : List String) (v : String)
    (ch ch₁ : DictChildren), insertPath keys v ch = some ch₁ →
    insertPath keys v ch₁ = some ch₁
  | [k], v, ch, ch₁, h => by
      simp [insertPath] at h ⊢
      rw [← h, DictChildren.set_set]
  | k :: k2 :: rest, v, ch, ch₁, h => by
      simp only [insertPath] at h ⊢
      split at h
      · rename_i hf
        split at h
        · exact absurd h (by simp)
        · rename_i sub hs
          simp only [Option.some.injEq] at h
          have hf1 : ch₁.find k = some (.branch sub) := by
            rw [← h]; exact DictChildren.find_append_single ch k (.branch sub) hf
          simp only [hf1, insertPath_idem (k2 :: rest) v .nil sub hs]
          simp [DictChildren.set_self ch₁ k (.branch sub) hf1]
      · exact absurd h (by simp)
      · rename_i sub hf
        split at h
        · exact absurd h (by simp)
        · rename_i sub' hs
          simp only [Option.some.injEq] at h
          have hf1 : ch₁.find k = some (.branch sub') := by
            rw [← h]; exact DictChildren.find_set ch k (.branch sub')
          simp only [hf1, insertPath_idem (k2 :: rest) v sub sub' hs]
          simp [DictChildren.set_self ch₁ k (.branch sub') hf1]

theorem insertPath_findPath : ∀ (keys : List String) (v : String)
    (ch ch' : DictChildren), insertPath keys v ch = some ch' →
    findPath ch' keys = some (.leaf v)
  | [k], v, ch, ch', h => by
      simp [insertPath] at h
      rw [← h]
      simp [findPath, DictChildren.find_set]
  | k :: k2 :: rest, v, ch, ch', h => by
      simp only [insertPath] at h
      split at h
      · rename_i hf
        split at h
        · exact absurd h (by simp)
        · rename_i sub hs
          simp only [Option.some.injEq] at h
          rw [← h]
          simp [findPath, DictChildren.find_append_single ch k (.branch sub) hf]
          exact insertPath_findPath (k2 :: rest) v .nil sub hs
      · exact absurd h (by simp)
      · rename_i sub hf
        split at h
        · exact absurd h (by simp)
        · rename_i sub' hs
          simp only [Option.some.injEq] at h
          rw [← h]
          simp [findPath, DictChildren.find_set]
          exact insertPath_findPath (k2 :: rest) v sub sub' hs

theorem insertAll_append : ∀ (es fs : List (List String × String))
    (ch : DictChildren), insertAll (es ++ fs) ch =
      match insertAll es ch with
      | none => none
      | some ch' => insertAll fs ch'
  | [], fs, ch => by simp [insertAll]
  | e :: rest, fs, ch => by
      simp only [List.cons_append, insertAll]
      cases insertPath e.1 e.2 ch with
      | none => simp
      | some ch' => simp [insertAll_append rest fs ch']

theorem childrenEntries_path_ne_nil : ∀ (ch : DictChildren)
    (e : List String × String), e ∈ childrenEntries ch → e.1 ≠ []
  | .cons k n rest, e, he => by
      simp [childrenEntries] at he
      rcases he with ⟨a, b, -, heq⟩ | hmem
      · rw [← heq]; simp
      · exact childrenEntries_path_ne_nil rest e hmem

mutual
theorem nodeEntries_ne_nil : ∀ (n : DictNode) (d : Nat),
    nodeGoodB d n = true → nodeEntries n ≠ []
  | .leaf v, _, _ => by simp [nodeEntries]
  | .branch cc, d, hg => by
      cases d with
      | zero => simp [nodeGoodB] at hg
      | succ m =>
          simp [nodeGoodB, Bool.and_eq_true] at hg
          simp only [nodeEntries]
          exact childrenEntries_ne_nil cc m hg.2 (by
            cases hcc : cc.isNilB
            · rfl
            · rw [hcc] at hg; simp at hg)

theorem childrenEntries_ne_nil : ∀ (cc : DictChildren) (d : Nat),
    childrenGoodB d cc = true → cc.isNilB = false → childrenEntries cc ≠ []
  | .nil, _, _, hnil => by simp [DictChildren.isNilB] at hnil
  | .cons k n rest, d, hg, _ => by
      simp [childrenGoodB, Bool.and_eq_true] at hg
      simp only [childrenEntries]
      intro hcontra
      rcases List.append_eq_nil.mp hcontra with ⟨hmap, -⟩
      exact nodeEntries_ne_nil n d hg.1.2 (List.map_eq_nil_iff.mp hmap)
end

mutual
theorem nodeEntries_len : ∀ (n : DictNode) (d : Nat),
    nodeGoodB d n = true → ∀ e ∈ nodeEntries n, e.1.length = d
  | .leaf v, d, hg, e, he => by
      cases d with
      | zero => simp [nodeEntries] at he; rw [he]; rfl
      | succ m => simp [nodeGoodB] at hg
  | .branch cc, d, hg, e, he => by
      cases d with
      | zero => simp [nodeGoodB] at hg
      | succ m =>
          simp [nodeGoodB, Bool.and_eq_true] at hg
          simp only [nodeEntries] at he
          exact childrenEntries_len cc m hg.2 e he

theorem childrenEntries_len : ∀ (cc : DictChildren) (d : Nat),
    childrenGoodB d cc = true → ∀ e ∈ childrenEntries cc, e.1.length = d + 1
  | .cons k n rest, d, hg, e, he => by
      simp [childrenGoodB, Bool.and_eq_true] at hg
      simp [childrenEntries] at he
      rcases he with ⟨a, b, hab, heq⟩ | hmem
      · rw [← heq]
        simp
        exact nodeEntries_len n d hg.1.2 (a, b) hab
      · exact childrenEntries_len rest d hg.2 e hmem
end

theorem insertAll_lift_branch : ∀ (es : List (List String × String))
    (k : String) (ch sub : DictChildren),
    ch.find k = some (.branch sub) → (∀ e ∈ es, e.1 ≠ []) →
    insertAll (es.map (fun e => (k :: e.1, e.2))) ch =
      match insertAll es sub with
      | none => none
      | some sub' => some (ch.set k (.branch sub'))
  | [], k, ch, sub, hf, _ => by
      simp [insertAll, DictChildren.set_self ch k (.branch sub) hf]
  | (p, v) :: rest, k, ch, sub, hf, hne => by
      cases p with
      | nil => exact absurd rfl (hne ([], v) (by simp))
      | cons p1 p2 =>
          simp only [List.map_cons, insertAll, insertPath, hf]
          cases hs : insertPath (p1 :: p2) v sub with
          | none => simp [insertAll]
          | some sub1 =>
              simp only []
              rw [insertAll_lift_branch rest k (ch.set k (.branch sub1)) sub1
                (DictChildren.find_set ch k (.branch sub1))
                (fun e he => hne e (by simp [he]))]
              cases insertAll rest sub1 with
              | none => simp
              | some sub' => simp [DictChildren.set_set]

theorem insertAll_lift_fresh : ∀ (es : List (List String × String))
    (k : String) (ch : DictChildren), ch.find k = none →
    (∀ e ∈ es, e.1 ≠ []) → es ≠ [] →
    insertAll (es.map (fun e => (k :: e.1, e.2))) ch =
      match insertAll es .nil with
      | none => none
      | some sub => some (ch.append (.cons k (.branch sub) .nil))
  | [], _, _, _, _, hne2 => absurd rfl hne2
  | (p, v) :: rest, k, ch, hf, hne, _ => by
      cases p with
      | nil => exact absurd rfl (hne ([], v) (by simp))
      | cons p1 p2 =>
          simp only [List.map_cons, insertAll, insertPath, hf]
          cases hs : insertPath (p1 :: p2) v .nil with
          | none => simp [insertAll]
          | some sub1 =>
              simp only []
              rw [insertAll_lift_branch rest k
                (ch.append (.cons k (.branch sub1) .nil)) sub1
                (DictChildren.find_append_single ch k (.branch sub1) hf)
                (fun e he => hne e (by simp [he]))]
              cases insertAll rest sub1 with
              | none => simp
              | some sub' =>
                  simp [DictChildren.set_append_single ch k (.branch sub1)
                    (.branch sub') hf]

mutual
theorem nodeRebuild : ∀ (n : DictNode) (d : Nat) (k : String)
    (ch : DictChildren), nodeGoodB d n = true → ch.find k = none →
    insertAll ((nodeEntries n).map (fun e => (k :: e.1, e.2))) ch =
      some (ch.append (.cons k n .nil))
  | .leaf v, d, k, ch, _, hf => by
      simp [nodeEntries, insertAll, insertPath,
        DictChildren.set_fresh ch k (.leaf v) hf]
  | .branch cc, d, k, ch, hg, hf => by
      cases d with
      | zero => simp [nodeGoodB] at hg
      | succ m =>
          simp [nodeGoodB, Bool.and_eq_true] at hg
          have hnil : cc.isNilB = false := by
            cases hcc : cc.isNilB
            · rfl
            · rw [hcc] at hg; simp at hg
          simp only [nodeEntries]
          rw [insertAll_lift_fresh (childrenEntries cc) k ch hf
            (fun e he => childrenEntries_path_ne_nil cc e he)
            (childrenEntries_ne_nil cc m hg.2 hnil)]
          rw [childrenRebuild cc m .nil hg.2 (fun _ _ _ => rfl)]
          rfl

theorem childrenRebuild : ∀ (cc : DictChildren) (d : Nat)
    (ch : DictChildren), childrenGoodB d cc = true →
    (∀ k n, cc.find k = some n → ch.find k = none) →
    insertAll (childrenEntries cc) ch = some (ch.append cc)
  | .nil, _, ch, _, _ => by
      simp [childrenEntries, insertAll, DictChildren.append_nil]
  | .cons k n rest, d, ch, hg, hdisj => by
      simp [childrenGoodB, Bool.and_eq_true] at hg
      simp only [childrenEntries]
      rw [insertAll_append]
      rw [nodeRebuild n d k ch hg.1.2
        (hdisj k n (by simp [DictChildren.find]))]
      simp only []
      rw [childrenRebuild rest d (ch.append (.cons k n .nil)) hg.2 ?_]
      · rw [DictChildren.append_assoc]
        simp [DictChildren.append]
      · intro k' n' hk'
        have hkne : ¬k = k' := by
          intro hk
          rw [← hk] at hk'
          rw [hk'] at hg
          simp at hg
        rw [DictChildren.find_append]
        rw [hdisj k' n' (by simp [DictChildren.find, hkne, hk'])]
        simp [DictChildren.find, hkne]
end

theorem topRebuild : ∀ (d0 ch : DictChildren), topGoodB d0 = true →
    (∀ k n, d0.find k = some n → ch.find k = none) →
    insertAll (childrenEntries d0) ch = some (ch.append d0)
  | .nil, ch, _, _ => by
      simp [childrenEntries, insertAll, DictChildren.append_nil]
  | .cons k n rest, ch, hg, hdisj => by
      simp [topGoodB, Bool.and_eq_true] at hg
      obtain ⟨⟨hfind, hmatch⟩, hrest⟩ := hg
      cases hnpm : lookupNumParamsForMatch k with
      | none => rw [hnpm] at hmatch; simp at hmatch
      | some npm =>
          rw [hnpm] at hmatch
          simp only [childrenEntries]
          rw [insertAll_append]
          rw [nodeRebuild n npm k ch hmatch
            (hdisj k n (by simp [DictChildren.find]))]
          simp only []
          rw [topRebuild rest (ch.append (.cons k n .nil)) hrest ?_]
          · rw [DictChildren.append_assoc]
            simp [DictChildren.append]
          · intro k' n' hk'
            have hkne : ¬k = k' := by
              intro hk
              rw [← hk] at hk'
              rw [hk'] at hfind
              simp at hfind
            rw [DictChildren.find_append]
            rw [hdisj k' n' (by simp [DictChildren.find, hkne, hk'])]
            simp [DictChildren.find, hkne]

theorem topGood_entryShape : ∀ (d0 : DictChildren), topGoodB d0 = true →
    ∀ e ∈ childrenEntries d0, ∃ nm p, e.1 = nm :: p ∧
      lookupNumParamsForMatch nm = some p.length
  | .cons k n rest, hg, e, he => by
      simp [topGoodB, Bool.and_eq_true] at hg
      obtain ⟨⟨-, hmatch⟩, hrest⟩ := hg
      simp [childrenEntries] at he
      rcases he with ⟨a, b, hab, heq⟩ | hmem
      · cases hnpm : lookupNumParamsForMatch k with
        | none => rw [hnpm] at hmatch; simp at hmatch
        | some npm =>
            rw [hnpm] at hmatch
            refine ⟨k, a, ?_, ?_⟩
            · rw [← heq]
            · rw [hnpm, nodeEntries_len n npm hmatch (a, b) hab]
      · exact topGood_entryShape rest hrest e hmem

theorem foldInsert_eq_insertAll : ∀ (es : List (List String × String))
    (acc : DictChildren),
    (∀ e ∈ es, ∃ nm p, e.1 = nm :: p ∧
      lookupNumParamsForMatch nm = some p.length) →
    foldInsert (es.map (fun e => e.1 ++ [e.2])) acc = insertAll es acc
  | [], acc, _ => by simp [foldInsert, insertAll]
  | (path, v) :: rest, acc, hshape => by
      obtain ⟨nm, p, hpath, hnm⟩ := hshape (path, v) (by simp)
      simp only at hpath
      subst hpath
      have hadd : addFunctionToChangesDict ((nm :: p) ++ [v]) acc =
          insertPath (nm :: p) v acc := by
        simp only [List.cons_append, addFunctionToChangesDict]
        rw [show lookupNumParamsForMatch nm = some p.length from hnm]
        simp only []
        have hget : (nm :: (p ++ [v]))[p.length + 1]? = some v := by
          rw [show nm :: (p ++ [v]) = (nm :: p) ++ [v] by simp]
          rw [List.getElem?_append_right (by simp)]
          simp
        rw [hget]
        simp only []
        rw [show nm :: (p ++ [v]) = (nm :: p) ++ [v] by simp]
        rw [show p.length + 1 = (nm :: p).length by simp]
        rw [List.take_left]
      simp only [List.map_cons, foldInsert, insertAll]
      rw [show (nm :: p) ++ [v] = nm :: (p ++ [v]) by simp] at hadd ⊢
      rw [hadd]
      cases insertPath (nm :: p) v acc with
      | none => simp
      | some acc' =>
          simp only []
          exact foldInsert_eq_insertAll rest acc'
            (fun e he => hshape e (by simp [he]))

/-- Round trip: parsing the flattened form of a well-formed changes dict
rebuilds exactly the same dict (same keys, same order, same leaves). -/
theorem parse_convert (d0 : DictChildren) (hg : topGoodB d0 = true) :
    foldInsert (convertChangesDictToFunctionList d0) .nil = some d0 := by
  rw [convert_eq_entries,
    foldInsert_eq_insertAll (childrenEntries d0) .nil (topGood_entryShape d0 hg)]
  rw [topRebuild d0 .nil hg (fun _ _ _ => rfl)]
  rfl

/-! ### Claim C1: compaction idempotence -/
/-- C1: for every existing change log and every mutating operation,
invoking `UpdateProfileChangesFile` twice in sequence with the same kind
and the same argument list yields a flattened change log of the same
length as invoking it once (in fact, the identical log), and the leaf
keyed by the kind plus its first `NumParamsForMatch` arguments holds the
second invocation's trailing value. -/
theorem claim1_compaction_idempotence (lines : List (List String))
    (name : String) (params : List String) (out1 : List (List String))
    (h : updateProfileChangesFile lines name params = some out1) :
    ∃ npm w, lookupNumParamsForMatch name = some npm ∧
      params[npm]? = some w ∧
      updateProfileChangesFile out1 name params = some out1 ∧
      logLeaf out1 (name :: params.take npm) = some w := by
  simp only [updateProfileChangesFile] at h
  split at h
  · exact absurd h (by simp)
  · rename_i d0 hp
    split at h
    · exact absurd h (by simp)
    · rename_i d1 ha
      simp only [Option.some.injEq] at h
      have ha' := ha
      simp only [addFunctionToChangesDict] at ha'
      split at ha'
      · exact absurd ha' (by simp)
      · rename_i npm hnpm
        split at ha'
        · exact absurd ha' (by simp)
        · rename_i w hw
          rw [List.take_succ_cons] at ha'
          have hg0 : topGoodB d0 = true := foldInsert_top_good lines .nil d0 rfl hp
          have hg1 : topGoodB d1 = true :=
            addFunction_top_good (name :: params) d0 d1 hg0 ha
          have hw' : params[npm]? = some w := by simpa using hw
          have hins := insertPath_idem (name :: params.take npm) w d0 d1 ha'
          have hfp := insertPath_findPath (name :: params.take npm) w d0 d1 ha'
          refine ⟨npm, w, hnpm, hw', ?_, ?_⟩
          · simp only [updateProfileChangesFile, ← h, parse_convert d1 hg1,
              addFunctionToChangesDict, hnpm, hw, List.take_succ_cons, hins]
          · simp only [logLeaf, ← h, parse_convert d1 hg1, hfp]

/-- Witness for C1 at the design document's example inputs: the log holds
`set_currency_to_tier "Chromatic Orb" 5`, and
`set_currency_to_tier("Chromatic Orb", 2)` is recorded twice. -/
theorem claim1_witness :
    ∃ npm w, lookupNumParamsForMatch "set_currency_to_tier" = some npm ∧
      (["Chromatic Orb", "2"] : List String)[npm]? = some w ∧
      updateProfileChangesFile [["set_currency_to_tier", "Chromatic Orb", "2"]]
        "set_currency_to_tier" ["Chromatic Orb", "2"] =
        some [["set_currency_to_tier", "Chromatic Orb", "2"]] ∧
      logLeaf [["set_currency_to_tier", "Chromatic Orb", "2"]]
        ("set_currency_to_tier" :: (["Chromatic Orb", "2"] : List String).take npm) =
        some w :=
  claim1_compaction_idempotence
    [["set_currency_to_tier", "Chromatic Orb", "5"]]
    "set_currency_to_tier" ["Chromatic Orb", "2"]
    [["set_currency_to_tier", "Chromatic Orb", "2"]] (by decide)

mutual
theorem nodeGood_nodup : ∀ (n : DictNode) (d : Nat),
    nodeGoodB d n = true → nodeNodupB n = true
  | .leaf _, _, _ => rfl
  | .branch cc, d, hg => by
      cases d with
      | zero => simp [nodeGoodB] at hg
      | succ m =>
          simp [nodeGoodB, Bool.and_eq_true] at hg
          simp only [nodeNodupB]
          exact childrenGood_nodup cc m hg.2

theorem childrenGood_nodup : ∀ (cc : DictChildren) (d : Nat),
    childrenGoodB d cc = true → childrenNodupB cc = true
  | .nil, _, _ => rfl
  | .cons k n rest, d, hg => by
      simp [childrenGoodB, Bool.and_eq_true] at hg
      simp only [childrenNodupB, Bool.and_eq_true]
      refine ⟨⟨by simp [hg.1.1], nodeGood_nodup n d hg.1.2⟩,
        childrenGood_nodup rest d hg.2⟩
end

theorem topGood_nodup : ∀ (d0 : DictChildren), topGoodB d0 = true →
    childrenNodupB d0 = true
  | .nil, _ => rfl
  | .cons k n rest, hg => by
      simp [topGoodB, Bool.and_eq_true] at hg
      obtain ⟨⟨hfind, hmatch⟩, hrest⟩ := hg
      simp only [childrenNodupB, Bool.and_eq_true]
      refine ⟨⟨by simp [hfind], ?_⟩, topGood_nodup rest hrest⟩
      cases hnpm : lookupNumParamsForMatch k with
      | none => rw [hnpm] at hmatch; simp at hmatch
      | some npm => rw [hnpm] at hmatch; exact nodeGood_nodup n npm hmatch

theorem childrenNodup_find : ∀ (ch : DictChildren) (k : String)
    (n : DictNode), childrenNodupB ch = true → ch.find k = some n →
    nodeNodupB n = true
  | .cons k' m rest, k, n, hg, hf => by
      simp [childrenNodupB, Bool.and_eq_true] at hg
      by_cases h : k' = k
      · simp [DictChildren.find, h] at hf; rw [← hf]; exact hg.1.2
      · simp [DictChildren.find, h] at hf
        exact childrenNodup_find rest k n hg.2 hf

theorem childrenEntries_head_key : ∀ (ch : DictChildren)
    (e : List String × String), e ∈ childrenEntries ch →
    ∃ k0 p, e.1 = k0 :: p ∧ ch.find k0 ≠ none
  | .cons k n rest, e, he => by
      simp [childrenEntries] at he
      rcases he with ⟨a, b, -, heq⟩ | hmem
      · exact ⟨k, a, by rw [← heq], by simp [DictChildren.find]⟩
      · obtain ⟨k0, p, hp, hf⟩ := childrenEntries_head_key rest e hmem
        refine ⟨k0, p, hp, ?_⟩
        by_cases h : k = k0 <;> simp [DictChildren.find, h, hf]

theorem map_id_of_forall {α : Type} (f : α → α) : ∀ (l : List α),
    (∀ e ∈ l, f e = e) → l.map f = l
  | [], _ => rfl
  | a :: rest, h => by
      simp only [List.map_cons, h a (by simp)]
      rw [map_id_of_forall f rest (fun e he => h e (by simp [he]))]

theorem blockDecomp : ∀ (ch : DictChildren) (k : String) (n : DictNode),
    ch.find k = some n → childrenNodupB ch = true →
    ∃ pre post,
      childrenEntries ch =
        pre ++ (nodeEntries n).map (fun e => (k :: e.1, e.2)) ++ post ∧
      (∀ nNew, childrenEntries (ch.set k nNew) =
        pre ++ (nodeEntries nNew).map (fun e => (k :: e.1, e.2)) ++ post) ∧
      (∀ e ∈ pre, ∀ p, e.1 ≠ k :: p) ∧
      (∀ e ∈ post, ∀ p, e.1 ≠ k :: p)
  | .cons k' m rest, k, n, hf, hg => by
      simp [childrenNodupB, Bool.and_eq_true] at hg
      by_cases h : k' = k
      · subst h
        simp [DictChildren.find] at hf
        subst hf
        refine ⟨[], childrenEntries rest, by simp [childrenEntries], ?_, by simp, ?_⟩
        · intro nNew
          simp [DictChildren.set, childrenEntries]
        · intro e he p hep
          obtain ⟨k0, p0, hp0, hfind0⟩ := childrenEntries_head_key rest e he
          rw [hp0] at hep
          have : k0 = k' := by
            have := List.cons.injEq k0 p0 k' p
            rw [hep] at hp0
            exact (List.cons.inj hep).1
          rw [this] at hfind0
          exact hfind0 (by simpa using hg.1.1)
      · simp [DictChildren.find, h] at hf
        obtain ⟨pre', post', he1, he2, hpre', hpost'⟩ :=
          blockDecomp rest k n hf hg.2
        refine ⟨(nodeEntries m).map (fun e => (k' :: e.1, e.2)) ++ pre', post',
          ?_, ?_, ?_, hpost'⟩
        · simp [childrenEntries, he1]
        · intro nNew
          simp [DictChildren.set, h, childrenEntries, he2 nNew]
        · intro e he p hep
          simp at he
          rcases he with ⟨a, b, -, heq⟩ | hmem
          · rw [← heq] at hep
            exact h (List.cons.inj hep).1
          · exact hpre' e hmem p hep

theorem replaceLeaf_entries : ∀ (keys : List String) (w : String)
    (ch : DictChildren) (v : String), childrenNodupB ch = true →
    findPath ch keys = some (.leaf v) →
    ∃ ch', insertPath keys w ch = some ch' ∧
      childrenEntries ch' = (childrenEntries ch).map
        (fun e => if e.1 = keys then (keys, w) else e)
  | [k], w, ch, v, hg, hf => by
      simp only [findPath] at hf
      refine ⟨ch.set k (.leaf w), by simp [insertPath], ?_⟩
      obtain ⟨pre, post, he1, he2, hpre, hpost⟩ :=
        blockDecomp ch k (.leaf v) hf hg
      rw [he2 (.leaf w), he1]
      simp only [nodeEntries, List.map_cons, List.map_nil, List.map_append]
      rw [map_id_of_forall _ pre (fun e he => by
        simp [if_neg (hpre e he [])]), map_id_of_forall _ post (fun e he => by
        simp [if_neg (hpost e he [])])]
      simp
  | k :: k2 :: rest, w, ch, v, hg, hf => by
      simp only [findPath] at hf
      cases hfk : ch.find k with
      | none => rw [hfk] at hf; exact absurd hf (by simp)
      | some node =>
          rw [hfk] at hf
          cases node with
          | leaf lv => exact absurd hf (by simp)
          | branch sub =>
              simp only [] at hf
              have hsubnodup : childrenNodupB sub = true := by
                have := childrenNodup_find ch k (.branch sub) hg hfk
                simpa [nodeNodupB] using this
              obtain ⟨sub', hins, hent⟩ :=
                replaceLeaf_entries (k2 :: rest) w sub v hsubnodup hf
              refine ⟨ch.set k (.branch sub'), ?_, ?_⟩
              · simp only [insertPath, hfk, hins]
              · obtain ⟨pre, post, he1, he2, hpre, hpost⟩ :=
                  blockDecomp ch k (.branch sub) hfk hg
                rw [he2 (.branch sub'), he1]
                simp only [nodeEntries, List.map_append]
                rw [map_id_of_forall _ pre (fun e he => by
                  simp [if_neg (hpre e he (k2 :: rest))]),
                  map_id_of_forall _ post (fun e he => by
                  simp [if_neg (hpost e he (k2 :: rest))])]
                rw [hent, List.map_map, List.map_map]
                have hcomp : ((fun e : List String × String => (k :: e.1, e.2)) ∘
                      fun e => if e.1 = k2 :: rest then (k2 :: rest, w) else e) =
                    ((fun e : List String × String =>
                        if e.1 = k :: k2 :: rest then (k :: k2 :: rest, w) else e) ∘
                      fun e : List String × String => (k :: e.1, e.2)) := by
                  funext e0
                  by_cases h0 : e0.1 = k2 :: rest <;> simp [Function.comp, h0]
                rw [hcomp]

/-! ### Claim C2: order preservation under overwrite -/
/-- C2: if the change log (the flattened form of a well-formed changes
dict `d`) already contains an operation with kind `name` and leading
arguments `params.take npm`, then recording a new operation with the same
kind and leading arguments through `UpdateProfileChangesFile` changes
only that entry's trailing value in the flattened log: every other entry
and the relative order of all key paths is unchanged, and the overwritten
entry stays at its original position instead of moving to the end. -/
theorem claim2_order_preservation (d : DictChildren) (name : String)
    (params : List String) (npm : Nat) (w oldv : String)
    (hg : topGoodB d = true)
    (hnpm : lookupNumParamsForMatch name = some npm)
    (hw : params[npm]? = some w)
    (hold : findPath d (name :: params.take npm) = some (.leaf oldv)) :
    updateProfileChangesFile (convertChangesDictToFunctionList d) name params =
      some ((convertChangesDictToFunctionList d).map
        (fun line => if line.dropLast = name :: params.take npm
          then (name :: params.take npm) ++ [w] else line)) := by
  obtain ⟨d', hins, hent⟩ :=
    replaceLeaf_entries (name :: params.take npm) w d oldv
      (topGood_nodup d hg) hold
  have hgetc : (name :: params)[npm + 1]? = some w := by simpa using hw
  simp only [updateProfileChangesFile, parse_convert d hg,
    addFunctionToChangesDict, hnpm, hgetc, List.take_succ_cons, hins,
    Option.some.injEq]
  rw [convert_eq_entries, convert_eq_entries, hent, List.map_map, List.map_map]
  have hcomp : ((fun e : List String × String => e.1 ++ [e.2]) ∘
        (fun e => if e.1 = name :: params.take npm
          then (name :: params.take npm, w) else e)) =
      ((fun line : List String => if line.dropLast = name :: params.take npm
          then (name :: params.take npm) ++ [w] else line) ∘
        (fun e : List String × String => e.1 ++ [e.2])) := by
    funext e0
    simp only [Function.comp_apply]
    rw [show (e0.1 ++ [e0.2]).dropLast = e0.1 by simp]
    by_cases h0 : e0.1 = name :: params.take npm <;> simp [h0]
  rw [hcomp]

/-- Witness for C2: overwriting `set_currency_to_tier "Chromatic Orb"`
in a three-entry log touches only that entry's trailing value. -/
theorem claim2_witness :
    updateProfileChangesFile (convertChangesDictToFunctionList exampleDict2)
      "set_currency_to_tier" ["Chromatic Orb", "2"] =
      some ((convertChangesDictToFunctionList exampleDict2).map
        (fun line => if line.dropLast =
            "set_currency_to_tier" :: (["Chromatic Orb", "2"] : List String).take 1
          then ("set_currency_to_tier" ::
            (["Chromatic Orb", "2"] : List String).take 1) ++ ["2"]
          else line)) :=
  claim2_order_preservation exampleDict2 "set_currency_to_tier"
    ["Chromatic Orb", "2"] 1 "2" "5" (by decide) (by decide) (by decide)
    (by rfl)

theorem addFunction_none_of_corrupt (line : List String)
    (hbad : corruptLineB line = true) (acc : DictChildren) :
    addFunctionToChangesDict line acc = none := by
  cases line with
  | nil => rfl
  | cons nm rest =>
      simp only [corruptLineB] at hbad
      simp only [addFunctionToChangesDict]
      cases hnpm : lookupNumParamsForMatch nm with
      | none => simp
      | some npm =>
          rw [hnpm] at hbad
          simp at hbad
          have hnone : (nm :: rest)[npm + 1]? = none :=
            List.getElem?_eq_none (by simp; omega)
          simp only [hnone]

theorem foldInsert_none_of_corrupt : ∀ (lines : List (List String))
    (line : List String) (acc : DictChildren), line ∈ lines →
    corruptLineB line = true → foldInsert lines acc = none
  | l :: rest, line, acc, hmem, hbad => by
      simp only [foldInsert]
      cases ha : addFunctionToChangesDict l acc with
      | none => simp
      | some acc' =>
          simp only []
          rcases List.mem_cons.mp hmem with rfl | hmem'
          · rw [addFunction_none_of_corrupt line hbad acc] at ha
            exact absurd ha (by simp)
          · exact foldInsert_none_of_corrupt rest line acc' hmem' hbad

/-- C7 counterexample: the claim states that an existing log line with
the wrong token count for its kind — too few OR TOO MANY — makes
`UpdateProfileChangesFile` fail fatally, and in particular is never
silently truncated into a well-formed entry.  But on the concrete log
line `set_gem_min_quality 20 EXTRA` (three tokens where the kind takes
two) the function succeeds and silently truncates the line to
`set_gem_min_quality 20`. -/
theorem claim7_counterexample :
    updateProfileChangesFile [["set_gem_min_quality", "20", "EXTRA"]]
      "set_flask_min_quality" ["14"] =
      some [["set_gem_min_quality", "20"], ["set_flask_min_quality", "14"]] := by
  decide

/-- C7 amended: an existing log line that is empty, names an unregistered
kind, or has FEWER than `NumParamsForMatch + 2` tokens makes
`UpdateProfileChangesFile` fail fatally with no partial recovery; a line
with MORE tokens is not fatal — the extra trailing tokens are silently
dropped, so the line acts exactly like its truncation to the first
`NumParamsForMatch + 2` tokens. -/
theorem claim7_malformed_lines_amended (lines : List (List String))
    (line : List String) (name : String) (params : List String)
    (hmem : line ∈ lines) (hbad : corruptLineB line = true) :
    updateProfileChangesFile lines name params = none ∧
    (∀ (tokens : List String) (nm : String) (npm : Nat) (acc : DictChildren),
      tokens.head? = some nm → lookupNumParamsForMatch nm = some npm →
      addFunctionToChangesDict tokens acc =
        addFunctionToChangesDict (tokens.take (npm + 2)) acc) := by
  constructor
  · simp only [updateProfileChangesFile,
      foldInsert_none_of_corrupt lines line .nil hmem hbad]
  · intro tokens nm npm acc hhead hnpm
    cases tokens with
    | nil => simp at hhead
    | cons nm' rest =>
        simp only [List.head?_cons, Option.some.injEq] at hhead
        subst hhead
        have hg : (rest.take (npm + 1))[npm]? = rest[npm]? := by
          rw [List.getElem?_take]
          simp
        have ht : (rest.take (npm + 1)).take npm = rest.take npm := by
          rw [List.take_take]
          congr 1
          omega
        simp only [addFunctionToChangesDict, List.take_succ_cons, hnpm,
          List.getElem?_cons_succ, hg, ht]

/-- Witness for the amended C7: a one-token `set_flask_min_quality` line
(too few tokens for a kind with `NumParamsForMatch = 0`) aborts the
update fatally. -/
theorem claim7_witness :
    updateProfileChangesFile [["set_flask_min_quality"]]
      "set_gem_min_quality" ["20"] = none ∧
    (∀ (tokens : List String) (nm : String) (npm : Nat) (acc : DictChildren),
      tokens.head? = some nm → lookupNumParamsForMatch nm = some npm →
      addFunctionToChangesDict tokens acc =
        addFunctionToChangesDict (tokens.take (npm + 2)) acc) :=
  claim7_malformed_lines_amended [["set_flask_min_quality"]]
    ["set_flask_min_quality"] "set_gem_min_quality" ["20"]
    (by simp) (by decide)

/-! ### Claim C6: nested-batch rejection -/
/-- C6: a `run_batch` line inside a batch input file is rejected: the
recursive call (`in_batch = True`) falls past every dispatch branch to
the unmatched-name error — the condition the design document names
`NestedBatchRejected` — with the state unchanged, so none of the nested
batch's operations execute; and a whole batch whose input begins with
such a line aborts with that error, having performed no effect beyond
clearing the output file. -/
theorem claim6_nested_batch_rejected (collab : Collaborator)
    (il : List (List String)) (fuel : Nat) (params ps : List String)
    (suppressOutput : Bool) (rest : List (List String)) (st : St) :
    delegate collab il (fuel + 1) "run_batch" params true suppressOutput st =
      .err .functionNotFound st ∧
    delegate collab (("run_batch" :: ps) :: rest) (fuel + 2) "run_batch" []
        false false st =
      .err .functionNotFound
        { st with output := "", events := st.events ++ [.writeOutput ""] } :=
  ⟨rfl, rfl⟩

/-! ### Claim C9: unguarded final-newline trim on empty aggregates -/
theorem currencyTiersOutput_empty (collab : Collaborator)
    (hcur : ∀ t, collab.getAllCurrencyInTier t = []) :
    currencyTiersOutput collab = "" := by
  have hfold : ∀ (l : List Nat) (acc : String),
      l.foldl (fun acc tier => acc ++ String.join
        ((collab.getAllCurrencyInTier tier).map
          (fun currency_name => currency_name ++ ";" ++ toString tier ++ "\n")))
        acc = acc := by
    intro l
    induction l with
    | nil => intro acc; rfl
    | cons t ts ih =>
        intro acc
        simp only [List.foldl_cons, hcur t, List.map_nil]
        rw [show String.join [] = "" from rfl]
        rw [show acc ++ "" = acc by simp]
        exact ih acc
  exact hfold _ ""

theorem archnemesisTiersOutput_empty (collab : Collaborator)
    (harch : ∀ t, collab.getAllArchnemesisModsInTier t = []) :
    archnemesisTiersOutput collab = "" := by
  have hfold : ∀ (l : List Nat) (acc : String),
      l.foldl (fun acc tier => acc ++ String.join
        ((collab.getAllArchnemesisModsInTier tier).map
          (fun mod_name => mod_name ++ ";" ++ toString tier ++ "\n")))
        acc = acc := by
    intro l
    induction l with
    | nil => intro acc; rfl
    | cons t ts ih =>
        intro acc
        simp only [List.foldl_cons, harch t, List.map_nil]
        rw [show String.join [] = "" from rfl]
        rw [show acc ++ "" = acc by simp]
        exact ih acc
  exact hfold _ ""

theorem essenceTiersOutput_empty (collab : Collaborator)
    (hess : collab.kNumEssenceTiers = 0) :
    essenceTierVisibilitiesOutput collab = "" := by
  simp [essenceTierVisibilitiesOutput, hess]

/-- C9: when every currency tier is empty, `get_all_currency_tiers`
builds the empty aggregate and the unguarded trim
`output_string[-1]` raises `IndexError` instead of returning an empty
response; `get_all_archnemesis_mod_tiers` alone guards the trim with a
length check and returns the empty response; the same unguarded pattern
in `get_all_essence_tier_visibilities` likewise raises when its tier
loop is empty. -/
theorem claim9_empty_aggregate_trim (collab : Collaborator)
    (hcur : ∀ t, collab.getAllCurrencyInTier t = [])
    (harch : ∀ t, collab.getAllArchnemesisModsInTier t = [])
    (hess : collab.kNumEssenceTiers = 0) :
    (∀ (il : List (List String)) (fuel : Nat) (inBatch : Bool) (st : St),
      delegate collab il (fuel + 1) "get_all_currency_tiers" [] inBatch
        false st = .err .stringIndexError st) ∧
    (∀ (il : List (List String)) (fuel : Nat) (st : St),
      delegate collab il (fuel + 1) "get_all_archnemesis_mod_tiers" []
        false false st =
        .ok { st with output := "", events := st.events ++ [.writeOutput ""] }) ∧
    (∀ (il : List (List String)) (fuel : Nat) (inBatch : Bool) (st : St),
      delegate collab il (fuel + 1) "get_all_essence_tier_visibilities" []
        inBatch false st = .err .stringIndexError st) := by
  refine ⟨?_, ?_, ?_⟩
  · intro il fuel inBatch st
    simp only [delegate, delegateCore, runDispatch,
      currencyTiersOutput_empty collab hcur]
    rfl
  · intro il fuel st
    simp only [delegate, delegateCore, runDispatch,
      archnemesisTiersOutput_empty collab harch]
    rfl
  · intro il fuel inBatch st
    simp only [delegate, delegateCore, runDispatch,
      essenceTiersOutput_empty collab hess]
    rfl

/-- Witness for C9 at a concrete empty-artifact collaborator. -/
theorem claim9_witness :
    (∀ (il : List (List String)) (fuel : Nat) (inBatch : Bool) (st : St),
      delegate collabEmpty il (fuel + 1) "get_all_currency_tiers" [] inBatch
        false st = .err .stringIndexError st) ∧
    (∀ (il : List (List String)) (fuel : Nat) (st : St),
      delegate collabEmpty il (fuel + 1) "get_all_archnemesis_mod_tiers" []
        false false st =
        .ok { st with output := "", events := st.events ++ [.writeOutput ""] }) ∧
    (∀ (il : List (List String)) (fuel : Nat) (inBatch : Bool) (st : St),
      delegate collabEmpty il (fuel + 1) "get_all_essence_tier_visibilities" []
        inBatch false st = .err .stringIndexError st) :=
  claim9_empty_aggregate_trim collabEmpty (fun _ => rfl) (fun _ => rfl) rfl

/-! ### Claim C5: intent is logged before any artifact-side effect -/
theorem assocLookup_mem : ∀ (k : String)
    (m : List (String × FunctionInfo)) (v : FunctionInfo),
    assocLookup k m = some v → (k, v) ∈ m
  | k, (k', v') :: rest, v, h => by
      simp only [assocLookup] at h
      by_cases hk : k' = k
      · rw [if_pos hk] at h
        simp only [Option.some.injEq] at h
        simp [hk, h]
      · rw [if_neg hk] at h
        simp [assocLookup_mem k rest v h]

/-- Every registered mutating kind reaches the generic
collaborator-delegation branch of the dispatch: none of the specially
modelled kinds is mutating. -/
theorem mutator_generic (name : String) (info : FunctionInfo)
    (hi : lookupInfo name = some info) (hm : info.modifiesFilter = true) :
    name ≠ "import_downloaded_filter" ∧ name ≠ "run_batch" ∧
    name ≠ "get_all_currency_tiers" ∧
    name ≠ "get_all_archnemesis_mod_tiers" ∧
    name ≠ "get_all_essence_tier_visibilities" ∧
    kOtherHandledNames.contains name = true := by
  have hmem : (name, info) ∈ kFunctionInfoMap := assocLookup_mem name _ info hi
  have hall : ∀ p ∈ kFunctionInfoMap, p.2.modifiesFilter = true →
      (p.1 ≠ "import_downloaded_filter" ∧ p.1 ≠ "run_batch" ∧
       p.1 ≠ "get_all_currency_tiers" ∧
       p.1 ≠ "get_all_archnemesis_mod_tiers" ∧
       p.1 ≠ "get_all_essence_tier_visibilities" ∧
       kOtherHandledNames.contains p.1 = true) := by decide
  exact hall (name, info) hmem hm

/-- C5: for every mutating operation executed with `suppress_output`
false, the change-log update runs before any artifact-side effect.  If
the collaborator call then raises, the raised-state carries the already
rewritten change log and no `SaveToFile` (nor any other artifact event);
if it succeeds at top level, the trace is exactly change-log write, then
artifact call, then output write, then persist. -/
theorem claim5_log_before_effect (collab : Collaborator)
    (il : List (List String)) (fuel : Nat) (name : String)
    (params : List String) (st : St) (info : FunctionInfo)
    (changes' : List (List String))
    (hi : lookupInfo name = some info) (hm : info.modifiesFilter = true)
    (hupd : updateProfileChangesFile st.changes name params = some changes') :
    (∀ inBatch, collab.apply name params = none →
      delegate collab il (fuel + 1) name params inBatch false st =
        .err .collaborator
          ⟨changes', st.output, st.events ++ [.writeChanges changes']⟩) ∧
    (∀ out, collab.apply name params = some out →
      delegate collab il (fuel + 1) name params false false st =
        .ok ⟨changes', out,
          st.events ++ [.writeChanges changes', .applyOp name params,
            .writeOutput out, .saveFilter]⟩) := by
  obtain ⟨h1, h2, h3, h4, h5, hcont⟩ := mutator_generic name info hi hm
  have hmemO : name ∈ kOtherHandledNames := by simpa using hcont
  constructor
  · intro inBatch hfail
    simp [delegate, delegateCore, logMutationStep, outputSaveEpilogue,
      runDispatch, hi, hm, hupd, hfail, hmemO, h1, h2, h3, h4, h5]
  · intro out hok
    simp [delegate, delegateCore, logMutationStep, outputSaveEpilogue,
      runDispatch, hi, hm, hupd, hok, hmemO, h1, h2, h3, h4, h5]

/-- Witness for C5: `set_gem_min_quality 20` against an empty change log
and a raising collaborator — the raised state holds the updated log and
no persist. -/
theorem claim5_witness :
    (∀ inBatch, collabFail.apply "set_gem_min_quality" ["20"] = none →
      delegate collabFail [] 1 "set_gem_min_quality" ["20"] inBatch false
        ⟨[], "", []⟩ =
        .err .collaborator ⟨[["set_gem_min_quality", "20"]], "",
          [.writeChanges [["set_gem_min_quality", "20"]]]⟩) ∧
    (∀ out, collabFail.apply "set_gem_min_quality" ["20"] = some out →
      delegate collabFail [] 1 "set_gem_min_quality" ["20"] false false
        ⟨[], "", []⟩ =
        .ok ⟨[["set_gem_min_quality", "20"]], out,
          [.writeChanges [["set_gem_min_quality", "20"]],
           .applyOp "set_gem_min_quality" ["20"],
           .writeOutput out, .saveFilter]⟩) :=
  claim5_log_before_effect collabFail [] 0 "set_gem_min_quality" ["20"]
    ⟨[], "", []⟩ ⟨true, true, some 0⟩ [["set_gem_min_quality", "20"]]
    (by decide) (by decide) (by decide)

/-! ### Claim C10: blank batch lines are skipped entirely -/
theorem replayLoop_congr (exec exec' : String → List String → St → DResult)
    (h : ∀ n ps s, exec n ps s = exec' n ps s) :
    ∀ (lines : List (List String)) (st : St),
    replayLoop exec lines st = replayLoop exec' lines st
  | [], st => rfl
  | [] :: rest, st => rfl
  | (n :: ps) :: rest, st => by
      simp only [replayLoop]
      rw [h n ps st]
      cases exec' n ps st with
      | err e s => simp
      | ok st' => simp [replayLoop_congr exec exec' h rest st']

theorem batchLoop_congr (exec exec' : String → List String → St → DResult)
    (h : ∀ n ps s, exec n ps s = exec' n ps s) :
    ∀ (lines : List (List String)) (cm : Bool) (st : St),
    batchLoop exec lines cm st = batchLoop exec' lines cm st
  | [], cm, st => rfl
  | [] :: rest, cm, st => by
      simp only [batchLoop]
      exact batchLoop_congr exec exec' h rest cm st
  | (n :: ps) :: rest, cm, st => by
      simp only [batchLoop]
      cases lookupInfo n with
      | none => simp
      | some info =>
          simp only []
          rw [h n ps st]
          cases exec' n ps st with
          | err e s => simp
          | ok st' =>
              simp [batchLoop_congr exec exec' h rest
                (cm || info.modifiesFilter) st']

theorem runDispatch_inBatch_irrel (collab : Collaborator)
    (il il' : List (List String))
    (exec exec' : String → List String → Bool → St → DResult)
    (name : String) (params : List String) (st : St)
    (hexec : ∀ n ps so s, exec n ps so s = exec' n ps so s) :
    runDispatch collab il exec name params true st =
      runDispatch collab il' exec' name params true st := by
  simp only [runDispatch, Bool.not_true, Bool.and_false, Bool.false_eq_true,
    if_false]
  by_cases h1 : name = "import_downloaded_filter"
  · simp only [h1, if_true, if_pos]
    cases importFlagOf collab params with
    | none => rfl
    | some flag =>
        cases flag with
        | false => rfl
        | true =>
            simp only []
            rw [replayLoop_congr (fun n ps s => exec n ps true s)
              (fun n ps s => exec' n ps true s)
              (fun n ps s => hexec n ps true s)]
  · simp only [h1, if_false, if_neg]

theorem delegate_inBatch_il_irrel : ∀ (fuel : Nat) (collab : Collaborator)
    (il il' : List (List String)) (name : String) (ps : List String)
    (so : Bool) (st : St),
    delegate collab il fuel name ps true so st =
      delegate collab il' fuel name ps true so st
  | 0, _, _, _, _, _, _, _ => rfl
  | fuel + 1, collab, il, il', name, ps, so, st => by
      simp only [delegate, delegateCore]
      cases lookupInfo name with
      | none => rfl
      | some info =>
          simp only []
          cases logMutationStep info name ps so st with
          | none => rfl
          | some st1 =>
              simp only []
              rw [runDispatch_inBatch_irrel collab il il' _ _ name ps st1
                (fun n p so' s =>
                  delegate_inBatch_il_irrel fuel collab il il' n p so' s)]

theorem batchLoop_skip_blank (exec : String → List String → St → DResult) :
    ∀ (l1 l2 : List (List String)) (cm : Bool) (st : St),
    batchLoop exec (l1 ++ [] :: l2) cm st = batchLoop exec (l1 ++ l2) cm st
  | [], l2, cm, st => by simp only [List.nil_append, batchLoop]
  | [] :: rest, l2, cm, st => by
      simp only [List.cons_append, batchLoop]
      exact batchLoop_skip_blank exec rest l2 cm st
  | (n :: ps) :: rest, l2, cm, st => by
      simp only [List.cons_append, batchLoop]
      cases lookupInfo n with
      | none => simp
      | some info =>
          simp only []
          cases exec n ps st with
          | err e s => simp
          | ok st' =>
              simp [batchLoop_skip_blank exec rest l2
                (cm || info.modifiesFilter) st']

/-- C10: a blank (or whitespace-only) line in the batch input is skipped
entirely: removing it changes nothing — it is not executed, contributes
no result text and no `@` separator and does not affect whether the
artifact is persisted. -/
theorem claim10_blank_lines_skipped (collab : Collaborator)
    (l1 l2 : List (List String)) (fuel : Nat) (st : St) :
    delegate collab (l1 ++ [] :: l2) fuel "run_batch" [] false false st =
      delegate collab (l1 ++ l2) fuel "run_batch" [] false false st := by
  cases fuel with
  | zero => rfl
  | succ f =>
      have hL : ∀ (il : List (List String)),
          delegate collab il (f + 1) "run_batch" [] false false st =
          (match ((match batchLoop
                (fun n ps s => delegate collab il f n ps true false s)
                il false ⟨st.changes, "", st.events ++ [.writeOutput ""]⟩ with
             | (_, .err e s) => DispatchResult.derr e s
             | (cm, .ok st2) =>
                 if cm then DispatchResult.dok ""
                   ⟨st2.changes, st2.output, st2.events ++ [.saveFilter]⟩
                 else DispatchResult.dok "" st2) : DispatchResult) with
           | .derr e s => DResult.err e s
           | .dok out st2 =>
               outputSaveEpilogue ⟨true, false, none⟩ "run_batch" false false
                 out st2) := fun il => rfl
      rw [hL (l1 ++ [] :: l2), hL (l1 ++ l2)]
      rw [batchLoop_congr
        (fun n ps s => delegate collab (l1 ++ [] :: l2) f n ps true false s)
        (fun n ps s => delegate collab (l1 ++ l2) f n ps true false s)
        (fun n ps s => delegate_inBatch_il_irrel f collab _ _ n ps false s)]
      rw [batchLoop_skip_blank]

/-- Dispatching a leaf kind (neither `run_batch` nor
`import_downloaded_filter`) never calls `exec`: it raises a non-depth
error with some state, or returns an output with the state unchanged, or
returns an output having performed exactly the collaborator call. -/
theorem runDispatch_leaf_cases (collab : Collaborator)
    (il : List (List String))
    (exec : String → List String → Bool → St → DResult)
    (n : String) (ps : List String) (ib : Bool) (st1 : St)
    (h1 : n ≠ "run_batch") (h2 : n ≠ "import_downloaded_filter") :
    (∃ e s, runDispatch collab il exec n ps ib st1 = .derr e s ∧
      e ≠ .outOfFuel) ∨
    (∃ out, runDispatch collab il exec n ps ib st1 = .dok out st1) ∨
    (∃ out, runDispatch collab il exec n ps ib st1 =
      .dok out ⟨st1.changes, st1.output, st1.events ++ [.applyOp n ps]⟩) := by
  simp only [runDispatch, h1, h2, decide_False, Bool.false_and,
    Bool.false_eq_true, if_false]
  by_cases h3 : n = "get_all_currency_tiers"
  · simp only [h3, if_true, ite_true, reduceIte]
    cases ps with
    | cons a l => exact Or.inl ⟨.arityMismatch, st1, rfl, by simp⟩
    | nil =>
        cases htr : trimFinalNewlineUnguarded (currencyTiersOutput collab) with
        | none => exact Or.inl ⟨.stringIndexError, st1, by simp [htr], by simp⟩
        | some out => exact Or.inr (Or.inl ⟨out, by simp [htr]⟩)
  · simp only [h3, if_false, ite_false, reduceIte]
    by_cases h4 : n = "get_all_archnemesis_mod_tiers"
    · simp only [h4, if_true, ite_true, reduceIte]
      cases ps with
      | cons a l => exact Or.inl ⟨.arityMismatch, st1, rfl, by simp⟩
      | nil =>
          exact Or.inr (Or.inl
            ⟨trimFinalNewlineGuarded (archnemesisTiersOutput collab), rfl⟩)
    · simp only [h4, if_false, ite_false, reduceIte]
      by_cases h5 : n = "get_all_essence_tier_visibilities"
      · simp only [h5, if_true, ite_true, reduceIte]
        cases ps with
        | cons a l => exact Or.inl ⟨.arityMismatch, st1, rfl, by simp⟩
        | nil =>
            cases htr : trimFinalNewlineUnguarded
                (essenceTierVisibilitiesOutput collab) with
            | none =>
                exact Or.inl ⟨.stringIndexError, st1, by simp [htr], by simp⟩
            | some out => exact Or.inr (Or.inl ⟨out, by simp [htr]⟩)
      · simp only [h5, if_false, ite_false, reduceIte]
        by_cases hc : kOtherHandledNames.contains n = true
        · simp only [hc, if_true, ite_true, reduceIte]
          cases happly : collab.apply n ps with
          | none => exact Or.inl ⟨.collaborator, st1, by simp [happly], by simp⟩
          | some out => exact Or.inr (Or.inr ⟨out, by simp [happly]⟩)
        · simp only [Bool.not_eq_true] at hc
          simp only [hc, if_false, ite_false, reduceIte]
          exact Or.inl ⟨.functionNotFound, st1, rfl, by simp⟩

/-- The logging prologue leaves the output alone and appends at most a
change-log-write event. -/
theorem logMutationStep_shape (info : FunctionInfo) (name : String)
    (params : List String) (so : Bool) (st st1 : St)
    (h : logMutationStep info name params so st = some st1) :
    st1.output = st.output ∧ ∃ pre0, st1.events = st.events ++ pre0 ∧
      countSaves pre0 = 0 ∧ appendTexts pre0 = [] := by
  simp only [logMutationStep] at h
  split at h
  · split at h
    · exact absurd h (by simp)
    · rename_i changes' hupd
      simp only [Option.some.injEq] at h
      rw [← h]
      exact ⟨rfl, [.writeChanges changes'], rfl, rfl, rfl⟩
  · simp only [Option.some.injEq] at h
    rw [← h]
    exact ⟨rfl, [], by simp, rfl, rfl⟩

/-- The epilogue never produces the exceeded-depth marker. -/
theorem epilogue_not_outOfFuel (info : FunctionInfo) (name : String)
    (ib so : Bool) (out : String) (st2 : St) :
    isOutOfFuel (outputSaveEpilogue info name ib so out st2) = false := by
  cases ib <;> cases so <;> cases hm : info.modifiesFilter <;>
    simp [outputSaveEpilogue, isOutOfFuel, hm]

/-- A leaf operation completes within one level: its delegation never
returns the exceeded-depth marker whenever at least one level of fuel is
available. -/
theorem delegate_leaf_not_outOfFuel (collab : Collaborator)
    (il : List (List String)) (f : Nat) (n : String) (ps : List String)
    (ib so : Bool) (st : St)
    (h1 : n ≠ "run_batch") (h2 : n ≠ "import_downloaded_filter") :
    isOutOfFuel (delegate collab il (f + 1) n ps ib so st) = false := by
  simp only [delegate, delegateCore]
  cases lookupInfo n with
  | none => rfl
  | some info =>
      simp only []
      cases logMutationStep info n ps so st with
      | none => rfl
      | some st1 =>
          simp only []
          rcases runDispatch_leaf_cases collab il
              (fun a b c d => delegate collab il f a b true c d) n ps ib st1 h1 h2
            with ⟨e, s, hd, hne⟩ | ⟨out, hd⟩ | ⟨out, hd⟩
          · rw [hd]
            cases e <;> simp [isOutOfFuel] at hne ⊢
          · rw [hd]
            exact epilogue_not_outOfFuel info n ib so out st1
          · rw [hd]
            exact epilogue_not_outOfFuel info n ib so out _

theorem lineIsLeafB_cons (n : String) (ps : List String)
    (h : lineIsLeafB (n :: ps) = true) :
    n ≠ "run_batch" ∧ n ≠ "import_downloaded_filter" := by
  simp [lineIsLeafB] at h
  exact h

theorem batchLoop_leaf_not_fuel (exec : String → List String → St → DResult)
    (hexec : ∀ n ps s, lineIsLeafB (n :: ps) = true →
      isOutOfFuel (exec n ps s) = false) :
    ∀ (lines : List (List String)) (cm : Bool) (st : St),
    lines.all lineIsLeafB = true →
    isOutOfFuel (batchLoop exec lines cm st).2 = false
  | [], cm, st, _ => rfl
  | [] :: rest, cm, st, hall => by
      simp only [List.all_cons, Bool.and_eq_true] at hall
      simp only [batchLoop]
      exact batchLoop_leaf_not_fuel exec hexec rest cm st hall.2
  | (n :: ps) :: rest, cm, st, hall => by
      simp only [List.all_cons, Bool.and_eq_true] at hall
      simp only [batchLoop]
      cases lookupInfo n with
      | none => simp [isOutOfFuel]
      | some info =>
          simp only []
          cases hex : exec n ps st with
          | err e s =>
              have hf := hexec n ps st hall.1
              rw [hex] at hf
              simpa using hf
          | ok st' => exact batchLoop_leaf_not_fuel exec hexec rest _ st' hall.2

theorem replayLoop_leaf_not_fuel (exec : String → List String → St → DResult)
    (hexec : ∀ n ps s, lineIsLeafB (n :: ps) = true →
      isOutOfFuel (exec n ps s) = false) :
    ∀ (lines : List (List String)) (st : St),
    lines.all lineIsLeafB = true →
    isOutOfFuel (replayLoop exec lines st) = false
  | [], st, _ => rfl
  | [] :: rest, st, _ => rfl
  | (n :: ps) :: rest, st, hall => by
      simp only [List.all_cons, Bool.and_eq_true] at hall
      simp only [replayLoop]
      cases hex : exec n ps st with
      | err e s =>
          have hf := hexec n ps st hall.1
          rw [hex] at hf
          simpa using hf
      | ok st' => exact replayLoop_leaf_not_fuel exec hexec rest st' hall.2

/-- Unfolding of one `run_batch` top-level call. -/
theorem delegate_runBatch_eq (collab : Collaborator)
    (il : List (List String)) (f : Nat) (st : St) :
    delegate collab il (f + 1) "run_batch" [] false false st =
    (match ((match batchLoop
          (fun n ps s => delegate collab il f n ps true false s)
          il false ⟨st.changes, "", st.events ++ [.writeOutput ""]⟩ with
       | (_, .err e s) => DispatchResult.derr e s
       | (cm, .ok st2) =>
           if cm then DispatchResult.dok ""
             ⟨st2.changes, st2.output, st2.events ++ [.saveFilter]⟩
           else DispatchResult.dok "" st2) : DispatchResult) with
     | .derr e s => DResult.err e s
     | .dok out st2 =>
         outputSaveEpilogue ⟨true, false, none⟩ "run_batch" false false
           out st2) := rfl

/-- Unfolding of one `import_downloaded_filter` top-level call. -/
theorem delegate_import_eq (collab : Collaborator)
    (il : List (List String)) (f : Nat) (params : List String) (st : St) :
    delegate collab il (f + 1) "import_downloaded_filter" params false false st =
    (match ((match importFlagOf collab params with
       | none => DispatchResult.derr .arityMismatch st
       | some false => DispatchResult.dok "" st
       | some true =>
           (match replayLoop
               (fun n ps s => delegate collab il f n ps true true s)
               st.changes ⟨st.changes, st.output, st.events ++ [.applyImport]⟩ with
            | .err e s => DispatchResult.derr e s
            | .ok st2 => DispatchResult.dok ""
                ⟨st2.changes, st2.output, st2.events ++ [.saveFilter]⟩)) :
       DispatchResult) with
     | .derr e s => DResult.err e s
     | .dok out st2 =>
         outputSaveEpilogue ⟨true, false, none⟩ "import_downloaded_filter"
           false false out st2) := rfl

/-- C4 counterexample: the claim bounds the recursion depth of
`DelegateFunctionCall` by 2 for every request and states that neither
replay-all nor batch can trigger another replay-all.  But a batch line
may name `import_downloaded_filter` (nothing rejects it), and that
replay-all then recurses a third level into the logged operations: at a
depth budget of 2 the request runs out of depth after `WriteOutput('')`
and `ApplyImportChanges`, while a budget of 3 completes it. -/
theorem claim4_counterexample :
    delegate collabEmpty [["import_downloaded_filter"]] 2 "run_batch" []
        false false ⟨[["set_gem_min_quality", "20"]], "", []⟩ =
      .err .outOfFuel ⟨[["set_gem_min_quality", "20"]], "",
        [.writeOutput "", .applyImport]⟩ ∧
    delegate collabEmpty [["import_downloaded_filter"]] 3 "run_batch" []
        false false ⟨[["set_gem_min_quality", "20"]], "", []⟩ =
      .ok ⟨[["set_gem_min_quality", "20"]], "\n@\n",
        [.writeOutput "", .applyImport, .applyOp "set_gem_min_quality" ["20"],
         .saveFilter, .appendOutput ""]⟩ :=
  ⟨by decide, by decide⟩

/-- C4 amended: batch and replay-all recurse exactly one level into the
operations they contain, so a depth budget of 2 suffices PROVIDED those
operations are leaves — the batch input lines name neither `run_batch`
nor `import_downloaded_filter`, and (for replay-all) so do the logged
change lines.  Without that proviso the bound fails (see the
counterexample): a batch line may trigger replay-all, reaching depth 3. -/
theorem claim4_depth_bound_amended (collab : Collaborator)
    (il : List (List String)) (st : St) (params : List String)
    (hil : il.all lineIsLeafB = true)
    (hch : st.changes.all lineIsLeafB = true) :
    isOutOfFuel (delegate collab il 2 "run_batch" [] false false st) = false ∧
    isOutOfFuel (delegate collab il 2 "import_downloaded_filter" params
      false false st) = false := by
  have hexec1 : ∀ n ps s, lineIsLeafB (n :: ps) = true →
      isOutOfFuel (delegate collab il 1 n ps true false s) = false := by
    intro n ps s h
    obtain ⟨h1, h2⟩ := lineIsLeafB_cons n ps h
    exact delegate_leaf_not_outOfFuel collab il 0 n ps true false s h1 h2
  have hexec2 : ∀ n ps s, lineIsLeafB (n :: ps) = true →
      isOutOfFuel (delegate collab il 1 n ps true true s) = false := by
    intro n ps s h
    obtain ⟨h1, h2⟩ := lineIsLeafB_cons n ps h
    exact delegate_leaf_not_outOfFuel collab il 0 n ps true true s h1 h2
  constructor
  · rw [show (2 : Nat) = 1 + 1 from rfl, delegate_runBatch_eq]
    have hb2 := batchLoop_leaf_not_fuel
      (fun n ps s => delegate collab il 1 n ps true false s) hexec1 il false
      ⟨st.changes, "", st.events ++ [.writeOutput ""]⟩ hil
    cases hb : batchLoop (fun n ps s => delegate collab il 1 n ps true false s)
        il false ⟨st.changes, "", st.events ++ [.writeOutput ""]⟩ with
    | mk cmx r =>
        rw [hb] at hb2
        cases r with
        | err e s => simpa using hb2
        | ok st2 =>
            simp only []
            cases cmx <;> simp <;> exact epilogue_not_outOfFuel _ _ _ _ _ _
  · rw [show (2 : Nat) = 1 + 1 from rfl, delegate_import_eq]
    cases importFlagOf collab params with
    | none => rfl
    | some flag =>
        cases flag with
        | false =>
            simp only []
            exact epilogue_not_outOfFuel _ _ _ _ _ _
        | true =>
            simp only []
            have hr2 := replayLoop_leaf_not_fuel
              (fun n ps s => delegate collab il 1 n ps true true s) hexec2
              st.changes ⟨st.changes, st.output, st.events ++ [.applyImport]⟩ hch
            cases hr : replayLoop
                (fun n ps s => delegate collab il 1 n ps true true s)
                st.changes ⟨st.changes, st.output, st.events ++ [.applyImport]⟩ with
            | err e s =>
                rw [hr] at hr2
                simpa using hr2
            | ok st2 =>
                simp only []
                exact epilogue_not_outOfFuel _ _ _ _ _ _

/-- Witness for the amended C4 at concrete leaf-only inputs. -/
theorem claim4_witness :
    isOutOfFuel (delegate collabEmpty [["get_gem_min_quality"]] 2 "run_batch"
      [] false false ⟨[["set_gem_min_quality", "20"]], "", []⟩) = false ∧
    isOutOfFuel (delegate collabEmpty [["get_gem_min_quality"]] 2
      "import_downloaded_filter" [] false false
      ⟨[["set_gem_min_quality", "20"]], "", []⟩) = false :=
  claim4_depth_bound_amended collabEmpty [["get_gem_min_quality"]]
    ⟨[["set_gem_min_quality", "20"]], "", []⟩ [] (by decide) (by decide)

theorem countSaves_append : ∀ (a b : List Event),
    countSaves (a ++ b) = countSaves a + countSaves b
  | [], b => by simp [countSaves]
  | e :: rest, b => by
      cases e <;> simp [countSaves, countSaves_append rest b]
      omega

theorem appendTexts_append : ∀ (a b : List Event),
    appendTexts (a ++ b) = appendTexts a ++ appendTexts b
  | [], b => by simp [appendTexts]
  | e :: rest, b => by
      cases e <;> simp [appendTexts, appendTexts_append rest b]

/-- One leaf operation inside a batch (not suppressed): on success it
appends exactly one result text bounded by the sentinel, performs no
artifact persist and no other output append. -/
theorem leaf_batch_ok_shape (collab : Collaborator)
    (il : List (List String)) (f : Nat) (n : String) (ps : List String)
    (st st' : St)
    (h1 : n ≠ "run_batch") (h2 : n ≠ "import_downloaded_filter")
    (hok : delegate collab il f n ps true false st = .ok st') :
    ∃ pre out, st'.events = st.events ++ pre ++ [.appendOutput out] ∧
      countSaves pre = 0 ∧ appendTexts pre = [] ∧
      st'.output = st.output ++ (out ++ "\n@\n") := by
  cases f with
  | zero => exact absurd hok (by simp [delegate])
  | succ f' =>
      simp only [delegate, delegateCore] at hok
      cases hli : lookupInfo n with
      | none =>
          simp only [hli] at hok
          exact absurd hok (by simp)
      | some info =>
          simp only [hli] at hok
          cases hpro : logMutationStep info n ps false st with
          | none =>
              simp only [hpro] at hok
              exact absurd hok (by simp)
          | some st1 =>
              simp only [hpro] at hok
              obtain ⟨hout1, pre0, hev1, hsv0, hap0⟩ :=
                logMutationStep_shape info n ps false st st1 hpro
              rcases runDispatch_leaf_cases collab il
                  (fun a b c d => delegate collab il f' a b true c d)
                  n ps true st1 h1 h2
                with ⟨e, s, hd, -⟩ | ⟨out, hd⟩ | ⟨out, hd⟩
              · simp only [hd] at hok
                exact absurd hok (by simp)
              · simp only [hd, outputSaveEpilogue, if_true, if_false,
                  Bool.false_eq_true, ite_true, ite_false, reduceIte,
                  DResult.ok.injEq] at hok
                refine ⟨pre0, out, ?_, hsv0, hap0, ?_⟩
                · rw [← hok]
                  simp only []
                  rw [hev1, List.append_assoc]
                · rw [← hok]
                  simp only []
                  rw [hout1]
              · simp only [hd, outputSaveEpilogue, if_true, if_false,
                  Bool.false_eq_true, ite_true, ite_false, reduceIte,
                  DResult.ok.injEq] at hok
                refine ⟨pre0 ++ [.applyOp n ps], out, ?_, ?_, ?_, ?_⟩
                · rw [← hok]
                  simp only []
                  rw [hev1]
                  simp [List.append_assoc]
                · rw [countSaves_append, hsv0]
                  simp [countSaves]
                · rw [appendTexts_append, hap0]
                  simp [appendTexts]
                · rw [← hok]
                  simp only []
                  rw [hout1]

/-- The batch loop over leaf lines: on success, the `contains_mutator`
flag is the disjunction over the lines, no persist happened inside the
loop, and the output grew by exactly the sentinel-bounded result texts of
the executed operations. -/
theorem batchLoop_leaf_shape (exec : String → List String → St → DResult)
    (hexec : ∀ n ps s s', lineIsLeafB (n :: ps) = true → exec n ps s = .ok s' →
      ∃ pre out, s'.events = s.events ++ pre ++ [.appendOutput out] ∧
        countSaves pre = 0 ∧ appendTexts pre = [] ∧
        s'.output = s.output ++ (out ++ "\n@\n")) :
    ∀ (lines : List (List String)) (cm : Bool) (st : St) (cm' : Bool)
      (st' : St), lines.all lineIsLeafB = true →
    batchLoop exec lines cm st = (cm', .ok st') →
    cm' = (cm || lines.any lineIsMutatorB) ∧
    ∃ delta, st'.events = st.events ++ delta ∧ countSaves delta = 0 ∧
      st'.output = st.output ++ concatAppended (appendTexts delta)
  | [], cm, st, cm', st', _, heq => by
      simp only [batchLoop, Prod.mk.injEq, DResult.ok.injEq] at heq
      obtain ⟨hcm, hst⟩ := heq
      refine ⟨by simp [hcm], [], ?_, rfl, ?_⟩
      · rw [← hst]; simp
      · rw [← hst]
        simp [appendTexts, concatAppended]
  | [] :: rest, cm, st, cm', st', hall, heq => by
      simp only [List.all_cons, Bool.and_eq_true] at hall
      simp only [batchLoop] at heq
      obtain ⟨hcm, delta, hev, hsv, hout⟩ :=
        batchLoop_leaf_shape exec hexec rest cm st cm' st' hall.2 heq
      exact ⟨by simpa [lineIsMutatorB] using hcm, delta, hev, hsv, hout⟩
  | (n :: ps) :: rest, cm, st, cm', st', hall, heq => by
      simp only [List.all_cons, Bool.and_eq_true] at hall
      simp only [batchLoop] at heq
      cases hli : lookupInfo n with
      | none => simp only [hli, Prod.mk.injEq] at heq; exact absurd heq.2 (by simp)
      | some info =>
          simp only [hli] at heq
          cases hex : exec n ps st with
          | err e s => simp only [hex, Prod.mk.injEq] at heq
                       exact absurd heq.2 (by simp)
          | ok s1 =>
              simp only [hex] at heq
              obtain ⟨pre, out, hev, hsv, hap, hout⟩ :=
                hexec n ps st s1 hall.1 hex
              obtain ⟨hcm, delta, hev2, hsv2, hout2⟩ :=
                batchLoop_leaf_shape exec hexec rest
                  (cm || info.modifiesFilter) s1 cm' st' hall.2 heq
              refine ⟨?_, (pre ++ [.appendOutput out]) ++ delta, ?_, ?_, ?_⟩
              · rw [hcm]
                simp [lineIsMutatorB, hli, Bool.or_assoc]
              · rw [hev2, hev]
                simp [List.append_assoc]
              · rw [countSaves_append, countSaves_append, hsv, hsv2]
                simp [countSaves]
              · rw [hout2, hout]
                rw [appendTexts_append, appendTexts_append, hap]
                simp [appendTexts, concatAppended, String.append_assoc]

/-- The shape of a successful top-level batch over leaf lines: one
output-file clear, then the loop's sentinel-bounded appends with no
persist, then exactly one persist iff some executed line was a mutator;
the final output file holds exactly the appended texts. -/
theorem runBatch_top_shape (collab : Collaborator)
    (il : List (List String)) (f : Nat) (st st' : St)
    (hleaf : il.all lineIsLeafB = true)
    (hok : delegate collab il (f + 1) "run_batch" [] false false st = .ok st') :
    ∃ cmx delta0, cmx = il.any lineIsMutatorB ∧ countSaves delta0 = 0 ∧
      st'.events = (st.events ++ [.writeOutput ""] ++ delta0) ++
        (if cmx then [.saveFilter] else []) ∧
      st'.output = concatAppended (appendTexts delta0) := by
  have hexec : ∀ n ps s s', lineIsLeafB (n :: ps) = true →
      delegate collab il f n ps true false s = .ok s' →
      ∃ pre out, s'.events = s.events ++ pre ++ [.appendOutput out] ∧
        countSaves pre = 0 ∧ appendTexts pre = [] ∧
        s'.output = s.output ++ (out ++ "\n@\n") := by
    intro n ps s s' hlf hex
    obtain ⟨h1, h2⟩ := lineIsLeafB_cons n ps hlf
    exact leaf_batch_ok_shape collab il f n ps s s' h1 h2 hex
  rw [delegate_runBatch_eq] at hok
  cases hb : batchLoop (fun n ps s => delegate collab il f n ps true false s)
      il false ⟨st.changes, "", st.events ++ [.writeOutput ""]⟩ with
  | mk cmx r =>
      rw [hb] at hok
      cases r with
      | err e s => exact absurd hok (by simp)
      | ok st2 =>
          obtain ⟨hcm, delta0, hev, hsv, hout⟩ :=
            batchLoop_leaf_shape _ hexec il false _ cmx st2 hleaf hb
          have hev' : st2.events = st.events ++ [Event.writeOutput ""] ++ delta0 := by
            simpa [List.append_assoc] using hev
          have hout' : st2.output = concatAppended (appendTexts delta0) := by
            simpa [String.empty_append] using hout
          cases cmx with
          | false =>
              simp only [Bool.false_eq_true, reduceIte, outputSaveEpilogue,
                DResult.ok.injEq] at hok
              refine ⟨false, delta0, by simpa using hcm, hsv, ?_, ?_⟩
              · rw [← hok]
                simp [hev']
              · rw [← hok]
                exact hout'
          | true =>
              simp only [Bool.false_eq_true, reduceIte, outputSaveEpilogue,
                DResult.ok.injEq] at hok
              refine ⟨true, delta0, by simpa using hcm, hsv, ?_, ?_⟩
              · rw [← hok]
                simp [hev']
              · rw [← hok]
                simp [hout']

/-- C3: a batch whose input lines are leaf (non-batch, non-replay)
operations persists the artifact exactly once, at the very end, if at
least one executed line is mutating, and zero times otherwise; no
persist happens per-operation inside the batch. -/
theorem claim3_batch_single_persist (collab : Collaborator)
    (il : List (List String)) (fuel : Nat) (st st' : St)
    (hleaf : il.all lineIsLeafB = true)
    (hok : delegate collab il fuel "run_batch" [] false false st = .ok st') :
    ∃ delta, st'.events = st.events ++ delta ∧
      countSaves delta = (if il.any lineIsMutatorB then 1 else 0) ∧
      (il.any lineIsMutatorB = true → delta.getLast? = some .saveFilter) := by
  cases fuel with
  | zero => exact absurd hok (by simp [delegate])
  | succ f =>
      obtain ⟨cmx, delta0, hcm, hsv, hev, -⟩ :=
        runBatch_top_shape collab il f st st' hleaf hok
      refine ⟨([.writeOutput ""] ++ delta0) ++
        (if cmx then [.saveFilter] else []), ?_, ?_, ?_⟩
      · rw [hev]
        simp [List.append_assoc]
      · rw [countSaves_append, countSaves_append, hsv, ← hcm]
        cases cmx <;> simp [countSaves]
      · intro hany
        rw [← hcm] at hany
        rw [hany]
        simp only [reduceIte]
        exact List.getLast?_concat _

/-- C8 counterexample: the claim states that the batch response is the
concatenation of the result texts with the `@` separator line appearing
only BETWEEN consecutive results.  A batch of one operation whose result
text is `7` would then produce exactly `7`; the code produces
`7\n@\n` — the separator also trails the final result. -/
theorem claim8_counterexample :
    delegate (Collaborator.mk (fun _ _ => some "7") (fun _ => [])
        (fun _ => []) (fun _ => false) 9 4 0 false)
      [["get_gem_min_quality"]] 2 "run_batch" [] false false ⟨[], "", []⟩ =
      .ok ⟨[], "7\n@\n", [.writeOutput "", .applyOp "get_gem_min_quality" [],
        .appendOutput "7"]⟩ ∧
    "7\n@\n" ≠ "7" :=
  ⟨by decide, by decide⟩

/-- C8 amended: for a batch of leaf operations, the response written to
the output file is the concatenation of the executed operations' result
texts, each one FOLLOWED by a line containing the single character `@` —
the sentinel line also trails the final result, rather than appearing
only between consecutive results. -/
theorem claim8_batch_output_amended (collab : Collaborator)
    (il : List (List String)) (fuel : Nat) (st st' : St)
    (hleaf : il.all lineIsLeafB = true)
    (hok : delegate collab il fuel "run_batch" [] false false st = .ok st') :
    ∃ outs delta, st'.events = st.events ++ delta ∧
      appendTexts delta = outs ∧
      st'.output = concatAppended outs := by
  cases fuel with
  | zero => exact absurd hok (by simp [delegate])
  | succ f =>
      obtain ⟨cmx, delta0, -, -, hev, hout⟩ :=
        runBatch_top_shape collab il f st st' hleaf hok
      refine ⟨appendTexts delta0,
        ([.writeOutput ""] ++ delta0) ++ (if cmx then [.saveFilter] else []),
        ?_, ?_, hout⟩
      · rw [hev]
        simp [List.append_assoc]
      · rw [appendTexts_append, appendTexts_append]
        cases cmx <;> simp [appendTexts]

/-- Witness for C3: a three-operation batch — two getters and one
mutator — persists exactly once, at the end. -/
theorem claim3_witness :
    ∃ delta : List Event,
      [Event.writeOutput "", Event.applyOp "get_gem_min_quality" [],
       Event.appendOutput "7",
       Event.writeChanges [["set_gem_min_quality", "20"]],
       Event.applyOp "set_gem_min_quality" ["20"], Event.appendOutput "7",
       Event.applyOp "get_flask_min_quality" [], Event.appendOutput "7",
       Event.saveFilter] = delta ∧
      countSaves delta = 1 ∧
      (([["get_gem_min_quality"], ["set_gem_min_quality", "20"],
        ["get_flask_min_quality"]] : List (List String)).any lineIsMutatorB =
          true → delta.getLast? = some Event.saveFilter) :=
  claim3_batch_single_persist collabSeven
    [["get_gem_min_quality"], ["set_gem_min_quality", "20"],
     ["get_flask_min_quality"]] 2 ⟨[], "", []⟩
    ⟨[["set_gem_min_quality", "20"]], "7\n@\n7\n@\n7\n@\n",
     [Event.writeOutput "", Event.applyOp "get_gem_min_quality" [],
      Event.appendOutput "7",
      Event.writeChanges [["set_gem_min_quality", "20"]],
      Event.applyOp "set_gem_min_quality" ["20"], Event.appendOutput "7",
      Event.applyOp "get_flask_min_quality" [], Event.appendOutput "7",
      Event.saveFilter]⟩ (by decide) (by decide)

/-- Witness for the amended C8: a two-getter batch writes
`7\n@\n7\n@\n` — each result trailed by the sentinel line. -/
theorem claim8_witness :
    ∃ (outs : List String) (delta : List Event),
      [Event.writeOutput "", Event.applyOp "get_gem_min_quality" [],
       Event.appendOutput "7", Event.applyOp "get_flask_min_quality" [],
       Event.appendOutput "7"] = delta ∧
      appendTexts delta = outs ∧
      "7\n@\n7\n@\n" = concatAppended outs :=
  claim8_batch_output_amended collabSeven
    [["get_gem_min_quality"], ["get_flask_min_quality"]] 2 ⟨[], "", []⟩
    ⟨[], "7\n@\n7\n@\n",
     [Event.writeOutput "", Event.applyOp "get_gem_min_quality" [],
      Event.appendOutput "7", Event.applyOp "get_flask_min_quality" [],
      Event.appendOutput "7"]⟩ (by decide) (by decide)

end BackendCli
